import Mathlib

/-!
# Vertex formats and index expansion (`src/modules/graphics/vertex.cpp`)

A shallow embedding of `love::graphics::vertex`: the index helpers
`getIndexDataSize`, `getIndexDataTypeFromMax`, `getIndexCount` and the template
`fillIndicesT` with its two instantiations (`uint16` and `uint32`), the format
functions `getFormatStride` and `getFormatFlags`, and the three name registries with
their `getConstant` overloads.

Machine integers are mathematical integers with the reductions C++ applies made
explicit:

* `uint16` operands are promoted to `int` before any arithmetic, so an expression
  over them is computed exactly and only reduced modulo `2^16` when it is stored;
* `uint32` operands are computed modulo `2^32` at every operation;
* signed `int` overflow is undefined behaviour: an `int` result outside
  `[INT_MIN, INT_MAX]` makes the whole computation `none`.

The output buffer is modelled by the sequence of stores made into it: each store
is a pair (buffer position, stored value), in program order.
-/

namespace Vertex

/-! ## Enumerations -/

/-- How a run of vertices is reinterpreted as triangles. -/
inductive TriangleIndexMode where
  | NONE
  | STRIP
  | FAN
  | QUADS
  deriving DecidableEq, Repr

/-- Modelled from the spec: the enumeration `IndexDataType` is declared in `vertex.h`,
which is not among the sources; it has the 16-bit type, the 32-bit type and the
`INDEX_MAX_ENUM` sentinel that stands for every value that is not an index type. -/
inductive IndexDataType where
  | INDEX_UINT16
  | INDEX_UINT32
  | INDEX_MAX_ENUM
  deriving DecidableEq, Repr

/-- The element types `fillIndicesT` is instantiated with. -/
inductive IndexT where
  | uint16
  | uint32
  deriving DecidableEq, Repr

/-! ## Machine arithmetic -/

/-- Largest value of a 32-bit `int`. -/
def INT_MAX : Int := 2147483647

/-- Smallest value of a 32-bit `int`. -/
def INT_MIN : Int := -2147483648

/-- Modelled from the spec: the constant `LOVE_UINT16_MAX` comes from a header that is
not among the sources; it is the 16-bit type's maximum representable value, 65535. -/
def LOVE_UINT16_MAX : Nat := 65535

/-- Largest value of `size_t` on a platform with 64-bit addresses. -/
def SIZE_MAX : Nat := 18446744073709551615

/-- The result of a signed `int` operation whose exact value is `x`: the value itself
when it is representable, undefined (`none`) when the operation overflows. -/
def intResult (x : Int) : Option Int :=
  if INT_MIN ≤ x ∧ x ≤ INT_MAX then some x else none

/-- Number of values of the element type. -/
def IndexT.modulus : IndexT → Int
  | .uint16 => 65536
  | .uint32 => 4294967296

/-- Value of one arithmetic operation on operands of element type `T` whose exact
result is `x`. `uint16` operands are promoted to `int`, where the operations of
`fillIndicesT` stay far below `INT_MAX` (every operand is below `2^16`), so the result
is exact; `uint32` operands stay unsigned and the result is reduced modulo `2^32`. -/
def IndexT.arith : IndexT → Int → Int
  | .uint16, x => x
  | .uint32, x => x % 4294967296

/-- Conversion of an integer to the element type `T`, as on a store into `T *indices`
or in the cast `T(...)`. -/
def IndexT.conv (t : IndexT) (x : Int) : Nat :=
  (x % t.modulus).toNat

/-! ## Index data types -/

/-- Byte size of an index element: `sizeof(uint16)`, `sizeof(uint32)`, else 0. -/
def getIndexDataSize (type : IndexDataType) : Nat :=
  match type with
  | .INDEX_UINT16 => 2
  | .INDEX_UINT32 => 4
  | _ => 0

/-- The index type picked for a largest vertex index:
`types[maxvalue > LOVE_UINT16_MAX ? 1 : 0]` with `types = {INDEX_UINT16, INDEX_UINT32}`. -/
def getIndexDataTypeFromMax (maxvalue : Nat) : IndexDataType :=
  let types : List IndexDataType := [.INDEX_UINT16, .INDEX_UINT32]
  types.getD (if maxvalue > LOVE_UINT16_MAX then 1 else 0) .INDEX_MAX_ENUM

/-! ## Index count -/

/-- Number of indices of the triangle list for a run of `vertexCount` vertices.
Both the argument and the result are `int`; C++ `/` on `int` truncates toward zero. -/
def getIndexCount (mode : TriangleIndexMode) (vertexCount : Int) : Option Int :=
  match mode with
  | .NONE => some 0
  | .STRIP | .FAN => do
      let d ← intResult (vertexCount - 2)
      intResult (3 * d)
  | .QUADS => do
      let m ← intResult (vertexCount * 6)
      some (Int.tdiv m 4)

/-! ## Index fill -/

/-- One store into the output buffer: the buffer position and the stored value. -/
abbrev Store := Int × Nat

/-- State of the STRIP and FAN loops: the `int` cursor `i` and the stores made so far. -/
structure FillState where
  i : Int
  stores : List Store
  deriving DecidableEq, Repr

/-- The statement `indices[i++] = v`: stores `v`, converted to `T`, at position `i`,
then increments the `int` cursor. -/
def put (t : IndexT) (v : Int) (s : FillState) : Option FillState := do
  let j ← intResult (s.i + 1)
  some { i := j, stores := s.stores ++ [(s.i, t.conv v)] }

/-- The STRIP loop `for (T index = ...; index < bound; index++)`, by the number of
iterations that remain (`bound - index`). `index` stays below `bound`, which is a value
of `T`, so `index++` never wraps. -/
def stripLoop (t : IndexT) (vertexStart : Nat) : Nat → Nat → FillState → Option FillState
  | 0, _, s => some s
  | n + 1, index, s => do
      let s ← put t (t.arith (vertexStart + index)) s
      let s ← put t (t.arith (t.arith (t.arith (vertexStart + index) + 1)
                  + t.arith ((index &&& 1 : Nat) : Int))) s
      let s ← put t (t.arith (t.arith (t.arith (vertexStart + index) + 2)
                  - t.arith ((index &&& 1 : Nat) : Int))) s
      stripLoop t vertexStart n (index + 1) s

/-- The FAN loop `for (T index = ...; index < vertexCount; index++)`, by the number of
iterations that remain (`vertexCount - index`). -/
def fanLoop (t : IndexT) (vertexStart : Nat) : Nat → Nat → FillState → Option FillState
  | 0, _, s => some s
  | n + 1, index, s => do
      let s ← put t vertexStart s
      let s ← put t (t.arith (t.arith (vertexStart + index) - 1)) s
      let s ← put t (t.arith (vertexStart + index)) s
      fanLoop t vertexStart n (index + 1) s

/-- The QUADS loop `for (int i = ...; i < count; i++)`, by the number of iterations
that remain (`count - i`). -/
def quadsLoop (t : IndexT) (vertexStart : Nat) : Nat → Int → List Store → Option (List Store)
  | 0, _, stores => some stores
  | n + 1, i, stores => do
      let ii ← intResult (i * 6)
      let i4 ← intResult (i * 4)
      let vi : Nat := t.conv (t.arith (vertexStart + i4))
      let p0 ← intResult (ii + 0)
      let p1 ← intResult (ii + 1)
      let p2 ← intResult (ii + 2)
      let p3 ← intResult (ii + 3)
      let p4 ← intResult (ii + 4)
      let p5 ← intResult (ii + 5)
      let next ← intResult (i + 1)
      quadsLoop t vertexStart n next
        (stores ++ [(p0, t.conv (t.arith (vi + 0))), (p1, t.conv (t.arith (vi + 1))),
                    (p2, t.conv (t.arith (vi + 2))), (p3, t.conv (t.arith (vi + 2))),
                    (p4, t.conv (t.arith (vi + 1))), (p5, t.conv (t.arith (vi + 3)))])

/-- The template `fillIndicesT<T>`: the stores made into `indices`, in program order,
or `none` when the run makes an `int` overflow. `vertexStart` and `vertexCount` are
values of `T`. -/
def fillIndicesT (t : IndexT) (mode : TriangleIndexMode) (vertexStart vertexCount : Nat) :
    Option (List Store) :=
  match mode with
  | .NONE => some []
  | .STRIP =>
      (stripLoop t vertexStart (t.arith ((vertexCount : Int) - 2) - 0).toNat 0
        { i := 0, stores := [] }).map FillState.stores
  | .FAN =>
      (fanLoop t vertexStart ((vertexCount : Int) - 2).toNat 2
        { i := 0, stores := [] }).map FillState.stores
  | .QUADS => do
      let count ← intResult ((vertexCount / 4 : Nat) : Int)
      quadsLoop t vertexStart (count - 0).toNat 0 []

/-- The two overloads `fillIndices(mode, uint16, uint16, uint16 *)` and
`fillIndices(mode, uint32, uint32, uint32 *)`, told apart by the element type. -/
def fillIndices (t : IndexT) (mode : TriangleIndexMode) (vertexStart vertexCount : Nat) :
    Option (List Store) :=
  fillIndicesT t mode vertexStart vertexCount

/-! ## Closed forms of the stored values -/

/-- Value the STRIP loop stores at buffer position `p`: the expression of the statement
number `p % 3` of iteration `index = p / 3`. -/
def stripValue (t : IndexT) (vertexStart p : Nat) : Nat :=
  if p % 3 = 0 then t.conv (t.arith (vertexStart + (p / 3 : Nat)))
  else if p % 3 = 1 then
    t.conv (t.arith (t.arith (t.arith (vertexStart + (p / 3 : Nat)) + 1)
      + t.arith ((p / 3 &&& 1 : Nat) : Int)))
  else
    t.conv (t.arith (t.arith (t.arith (vertexStart + (p / 3 : Nat)) + 2)
      - t.arith ((p / 3 &&& 1 : Nat) : Int)))

/-- Value the FAN loop stores at buffer position `p`: the expression of the statement
number `p % 3` of iteration `index = p / 3 + 2`. -/
def fanValue (t : IndexT) (vertexStart p : Nat) : Nat :=
  if p % 3 = 0 then t.conv vertexStart
  else if p % 3 = 1 then t.conv (t.arith (t.arith (vertexStart + (p / 3 + 2 : Nat)) - 1))
  else t.conv (t.arith (vertexStart + (p / 3 + 2 : Nat)))

/-- Offset added to `vi` by the statement number `k` of the QUADS loop body. -/
def quadOffset (k : Nat) : Nat :=
  if k = 0 then 0 else if k = 1 then 1 else if k = 2 then 2
  else if k = 3 then 2 else if k = 4 then 1 else 3

/-- Value the QUADS loop stores at buffer position `p`: statement number `p % 6` of
iteration `i = p / 6`. -/
def quadsValue (t : IndexT) (vertexStart p : Nat) : Nat :=
  t.conv (t.arith ((t.conv (t.arith (vertexStart + ((p / 6 : Nat) : Int) * 4)) : Nat)
    + (quadOffset (p % 6) : Nat)))

/-- The stores at positions `a, a + 1, ..., a + m - 1` with the given value at each. -/
def storesFrom (value : Nat → Nat) (a m : Nat) : List Store :=
  (List.range' a m).map fun (p : Nat) => ((p : Int), value p)

/-- Content of buffer position `p` after the stores were made in order into a buffer
that nothing had been written to: the value of the last store at `p`, if any. -/
def written (stores : List Store) (p : Int) : Option Nat :=
  stores.foldl (fun b st => if st.1 = p then some st.2 else b) none

/-- Value stored at buffer position `p` by the loop of the given mode. -/
def modeValue (t : IndexT) (mode : TriangleIndexMode) (vertexStart p : Nat) : Nat :=
  match mode with
  | .NONE => 0
  | .STRIP => stripValue t vertexStart p
  | .FAN => fanValue t vertexStart p
  | .QUADS => quadsValue t vertexStart p

/-- Number of stores the loop of the given mode makes: three per iteration of the STRIP
and FAN loops, six per iteration of the QUADS loop. -/
def storeCount (t : IndexT) (mode : TriangleIndexMode) (vertexCount : Nat) : Nat :=
  match mode with
  | .NONE => 0
  | .STRIP => 3 * (t.arith ((vertexCount : Int) - 2) - 0).toNat
  | .FAN => 3 * ((vertexCount : Int) - 2).toNat
  | .QUADS => 6 * (vertexCount / 4)

/-- The emission rule of the specification (section 4.3): the local vertex index, counted
from 0 within the run, that the rule of the mode places at buffer position `p`.
STRIP: triangle `i = p / 3` is `(i, i+1+(i&1), i+2-(i&1))`; FAN: triangle `i = p / 3 + 2`
is `(0, i-1, i)`; QUADS: group `g = p / 6` with local base `4g` is
`(b+0, b+1, b+2), (b+2, b+1, b+3)`. -/
def emissionLocalIndex (mode : TriangleIndexMode) (p : Nat) : Nat :=
  match mode with
  | .NONE => 0
  | .STRIP =>
      if p % 3 = 0 then p / 3
      else if p % 3 = 1 then p / 3 + 1 + (p / 3 &&& 1)
      else p / 3 + 2 - (p / 3 &&& 1)
  | .FAN =>
      if p % 3 = 0 then 0
      else if p % 3 = 1 then (p / 3 + 2) - 1
      else p / 3 + 2
  | .QUADS => 4 * (p / 6) + [0, 1, 2, 2, 1, 3].getD (p % 6) 0

/-- The emission rule of the specification (section 4.3): the number of buffer positions
the rule of the mode fills. STRIP has the triangles `i = 0 .. vertexCount - 3`, FAN the
triangles `i = 2 .. vertexCount - 1`, QUADS the groups `g = 0 .. vertexCount / 4 - 1` of two
triangles each. -/
def emissionCount (mode : TriangleIndexMode) (vertexCount : Nat) : Nat :=
  match mode with
  | .NONE => 0
  | .STRIP => 3 * (vertexCount - 2)
  | .FAN => 3 * (vertexCount - 2)
  | .QUADS => 6 * (vertexCount / 4)

/-- Number of iterations of the loop of the given mode, as its header fixes it:
`for (T index = 0; index < vertexCount - 2; index++)` for STRIP (the bound is computed in
the promoted type of `T`), `for (T index = 2; index < vertexCount; index++)` for FAN,
`for (int i = 0; i < vertexCount / 4; i++)` for QUADS. These are the iteration counts
`fillIndicesT` hands to `stripLoop`, `fanLoop` and `quadsLoop`. -/
def loopIterations (t : IndexT) (mode : TriangleIndexMode) (vertexCount : Nat) : Nat :=
  match mode with
  | .NONE => 0
  | .STRIP => (t.arith ((vertexCount : Int) - 2) - 0).toNat
  | .FAN => ((vertexCount : Int) - 2).toNat
  | .QUADS => vertexCount / 4

/-! ## Vertex formats -/

/-- Modelled from the spec: the enumeration `CommonFormat` is declared in `vertex.h`,
which is not among the sources; its values are the case labels of the switches of
`getFormatStride` and `getFormatFlags`. -/
inductive CommonFormat where
  | NONE
  | XYf
  | RGBAub
  | XYf_STf
  | XYf_STf_RGBAub
  | XYf_STus_RGBAub
  deriving DecidableEq, Repr

/-- Modelled from the spec: `sizeof(float)`, a 32-bit float (4 bytes). -/
def sizeof_float : Nat := 4

/-- Byte size of `uint8`. -/
def sizeof_uint8 : Nat := 1

/-- Byte size of `uint16`. -/
def sizeof_uint16 : Nat := 2

/-- Byte size of `Color`, fixed by `static_assert(sizeof(Color) == 4)`. -/
def sizeof_Color : Nat := 4

/-- Byte size of the struct `XYf_STf`, fixed by the `static_assert` on it. -/
def sizeof_XYf_STf : Nat := sizeof_float * 2 + sizeof_float * 2

/-- Byte size of the struct `XYf_STf_RGBAub`, fixed by the `static_assert` on it. -/
def sizeof_XYf_STf_RGBAub : Nat := sizeof_float * 2 + sizeof_float * 2 + sizeof_Color

/-- Byte size of the struct `XYf_STus_RGBAub`, fixed by the `static_assert` on it. -/
def sizeof_XYf_STus_RGBAub : Nat := sizeof_float * 2 + sizeof_uint16 * 2 + sizeof_Color

/-- Byte stride of a vertex of the given format. -/
def getFormatStride (format : CommonFormat) : Nat :=
  match format with
  | .NONE => 0
  | .XYf => sizeof_float * 2
  | .RGBAub => sizeof_uint8 * 4
  | .XYf_STf => sizeof_XYf_STf
  | .XYf_STf_RGBAub => sizeof_XYf_STf_RGBAub
  | .XYf_STus_RGBAub => sizeof_XYf_STus_RGBAub

/-- Modelled from the spec: the constants `ATTRIBFLAG_POS`, `ATTRIBFLAG_TEXCOORD` and
`ATTRIBFLAG_COLOR` are declared in `vertex.h`, which is not among the sources; the spec
describes them as independent bits of a mask. Their bit numbers are kept as parameters. -/
structure AttribBits where
  pos : Nat
  texcoord : Nat
  color : Nat
  deriving DecidableEq, Repr

/-- The flag of the position channel. -/
def ATTRIBFLAG_POS (b : AttribBits) : Nat := 1 <<< b.pos

/-- The flag of the texture coordinate channel. -/
def ATTRIBFLAG_TEXCOORD (b : AttribBits) : Nat := 1 <<< b.texcoord

/-- The flag of the colour channel. -/
def ATTRIBFLAG_COLOR (b : AttribBits) : Nat := 1 <<< b.color

/-- Attribute flags of a vertex format, returned as a `uint32`. -/
def getFormatFlags (b : AttribBits) (format : CommonFormat) : Nat :=
  (match format with
    | .NONE => 0
    | .XYf => ATTRIBFLAG_POS b
    | .RGBAub => ATTRIBFLAG_COLOR b
    | .XYf_STf => ATTRIBFLAG_POS b ||| ATTRIBFLAG_TEXCOORD b
    | .XYf_STf_RGBAub => ATTRIBFLAG_POS b ||| ATTRIBFLAG_TEXCOORD b ||| ATTRIBFLAG_COLOR b
    | .XYf_STus_RGBAub => ATTRIBFLAG_POS b ||| ATTRIBFLAG_TEXCOORD b ||| ATTRIBFLAG_COLOR b)
    % 4294967296

/-- The binary layout of the specification (section 6): bytes of the position channel of a
format, two 32-bit floats when the format has a position. -/
def positionBytes (format : CommonFormat) : Nat :=
  match format with
  | .NONE => 0
  | .XYf => 8
  | .RGBAub => 0
  | .XYf_STf => 8
  | .XYf_STf_RGBAub => 8
  | .XYf_STus_RGBAub => 8

/-- The binary layout of the specification (section 6): bytes of the texture coordinate
channel of a format, two 32-bit floats or two 16-bit unsigned integers. -/
def texcoordBytes (format : CommonFormat) : Nat :=
  match format with
  | .NONE => 0
  | .XYf => 0
  | .RGBAub => 0
  | .XYf_STf => 8
  | .XYf_STf_RGBAub => 8
  | .XYf_STus_RGBAub => 4

/-- The binary layout of the specification (section 6): bytes of the colour channel of a
format, four packed bytes of RGBA. -/
def colorBytes (format : CommonFormat) : Nat :=
  match format with
  | .NONE => 0
  | .XYf => 0
  | .RGBAub => 4
  | .XYf_STf => 0
  | .XYf_STf_RGBAub => 4
  | .XYf_STus_RGBAub => 4

/-! ## Name registries -/

/-- Modelled from the spec: the enumeration `VertexAttribID` is declared in `vertex.h`,
which is not among the sources; its values are those of `attribNameEntries` and the
`ATTRIB_MAX_ENUM` sentinel that sizes the table. -/
inductive VertexAttribID where
  | ATTRIB_POS
  | ATTRIB_TEXCOORD
  | ATTRIB_COLOR
  | ATTRIB_CONSTANTCOLOR
  | ATTRIB_MAX_ENUM
  deriving DecidableEq, Repr

/-- Modelled from the spec: the enumeration `Usage` is declared in `vertex.h`, which is not
among the sources; its values are those of `usageEntries` and the `USAGE_MAX_ENUM` sentinel
that sizes the table. -/
inductive Usage where
  | USAGE_STREAM
  | USAGE_DYNAMIC
  | USAGE_STATIC
  | USAGE_MAX_ENUM
  deriving DecidableEq, Repr

/-- Modelled from the spec: the class template `StringMap` of `common/StringMap.h` is not
among the sources. Section 4.1: a table built once from a fixed list of (name, enum)
pairs, looked up in both directions. -/
structure StringMap (T : Type) where
  entries : List (String × T)

/-- Modelled from the spec: `StringMap::find(const char *, T &)` is not among the sources.
Section 4.1: the lookup by name is a case-sensitive exact string match; an unknown name
reports failure (`none`) and no value. -/
def StringMap.find {T : Type} (m : StringMap T) (key : String) : Option T :=
  (m.entries.find? fun e => e.1 = key).map Prod.snd

/-- Modelled from the spec: `StringMap::find(T, const char *&)` is not among the sources.
Section 4.1: the lookup by enum value gives the name of the entry with that value; a
value without entry reports failure (`none`) and no name. -/
def StringMap.findKey {T : Type} [DecidableEq T] (m : StringMap T) (value : T) :
    Option String :=
  (m.entries.find? fun e => e.2 = value).map Prod.fst

/-- The table `attribNameEntries`. -/
def attribNameEntries : List (String × VertexAttribID) :=
  [("VertexPosition", .ATTRIB_POS),
   ("VertexTexCoord", .ATTRIB_TEXCOORD),
   ("VertexColor", .ATTRIB_COLOR),
   ("ConstantColor", .ATTRIB_CONSTANTCOLOR)]

/-- The registry `attribNames`, built from `attribNameEntries`. -/
def attribNames : StringMap VertexAttribID := { entries := attribNameEntries }

/-- The table `indexTypeEntries`. -/
def indexTypeEntries : List (String × IndexDataType) :=
  [("uint16", .INDEX_UINT16),
   ("uint32", .INDEX_UINT32)]

/-- The registry `indexTypes`, built from `indexTypeEntries`. -/
def indexTypes : StringMap IndexDataType := { entries := indexTypeEntries }

/-- The table `usageEntries`. -/
def usageEntries : List (String × Usage) :=
  [("stream", .USAGE_STREAM),
   ("dynamic", .USAGE_DYNAMIC),
   ("static", .USAGE_STATIC)]

/-- The registry `usages`, built from `usageEntries`. -/
def usages : StringMap Usage := { entries := usageEntries }

/-- The overload `bool getConstant(const char *in, VertexAttribID &out)`. -/
def getConstantVertexAttribID (name : String) : Option VertexAttribID :=
  attribNames.find name

/-- The overload `bool getConstant(VertexAttribID in, const char *&out)`. -/
def getConstantVertexAttribIDName (value : VertexAttribID) : Option String :=
  attribNames.findKey value

/-- The overload `bool getConstant(const char *in, IndexDataType &out)`. -/
def getConstantIndexDataType (name : String) : Option IndexDataType :=
  indexTypes.find name

/-- The overload `bool getConstant(IndexDataType in, const char *&out)`. -/
def getConstantIndexDataTypeName (value : IndexDataType) : Option String :=
  indexTypes.findKey value

/-- The overload `bool getConstant(const char *in, Usage &out)`. -/
def getConstantUsage (name : String) : Option Usage :=
  usages.find name

/-- The overload `bool getConstant(Usage in, const char *&out)`. -/
def getConstantUsageName (value : Usage) : Option String :=
  usages.findKey value

/-! ## Basic facts -/

theorem intResult_of_range {x : Int} (h₁ : INT_MIN ≤ x) (h₂ : x ≤ INT_MAX) :
    intResult x = some x := by
  simp [intResult, h₁, h₂]

theorem put_eq (t : IndexT) (v : Int) (s : FillState) (h₁ : INT_MIN ≤ s.i + 1)
    (h₂ : s.i + 1 ≤ INT_MAX) :
    put t v s = some { i := s.i + 1, stores := s.stores ++ [(s.i, t.conv v)] } := by
  simp [put, intResult_of_range h₁ h₂]

theorem storesFrom_three (value : Nat → Nat) (a m : Nat) :
    storesFrom value a (m + 3) =
      [((a : Int), value a), (((a + 1 : Nat) : Int), value (a + 1)),
        (((a + 2 : Nat) : Int), value (a + 2))] ++ storesFrom value (a + 3) m := by
  simp [storesFrom, List.range'_succ]
  omega

theorem length_storesFrom (value : Nat → Nat) (a m : Nat) :
    (storesFrom value a m).length = m := by
  simp [storesFrom]

theorem stripLoop_eq (t : IndexT) (vertexStart : Nat) :
    ∀ (n index : Nat) (s : FillState), s.i = 3 * (index : Int) →
      3 * ((index : Int) + n) ≤ INT_MAX →
      stripLoop t vertexStart n index s =
        some { i := 3 * ((index : Int) + n),
               stores := s.stores ++ storesFrom (stripValue t vertexStart) (3 * index) (3 * n) } := by
  intro n
  induction n with
  | zero =>
      intro index s hi _
      cases s
      simp_all [stripLoop, storesFrom]
  | succ n ih =>
      intro index s hi hmax
      have hM : INT_MAX = 2147483647 := rfl
      have hm : INT_MIN = -2147483648 := rfl
      have e : 3 * (n + 1) = 3 * n + 3 := by ring
      have v0 : stripValue t vertexStart (3 * index) =
          t.conv (t.arith (vertexStart + index)) := by
        have h1 : 3 * index % 3 = 0 := by omega
        have h2 : 3 * index / 3 = index := by omega
        simp [stripValue, h1, h2]
      have v1 : stripValue t vertexStart (3 * index + 1) =
          t.conv (t.arith (t.arith (t.arith (vertexStart + index) + 1)
            + t.arith ((index &&& 1 : Nat) : Int))) := by
        have h1 : (3 * index + 1) % 3 = 1 := by omega
        have h2 : (3 * index + 1) / 3 = index := by omega
        simp [stripValue, h1, h2]
      have v2 : stripValue t vertexStart (3 * index + 2) =
          t.conv (t.arith (t.arith (t.arith (vertexStart + index) + 2)
            - t.arith ((index &&& 1 : Nat) : Int))) := by
        have h1 : (3 * index + 2) % 3 = 2 := by omega
        have h2 : (3 * index + 2) / 3 = index := by omega
        simp [stripValue, h1, h2]
      rw [stripLoop, put_eq t _ s (by omega) (by push_cast at hmax; omega)]
      simp only [Option.bind_eq_bind, Option.some_bind]
      rw [put_eq t _ _ (by simp only; omega) (by simp only; push_cast at hmax; omega)]
      simp only [Option.some_bind]
      rw [put_eq t _ _ (by simp only; omega) (by simp only; push_cast at hmax; omega)]
      simp only [Option.some_bind]
      rw [ih (index + 1) _ (by simp only; push_cast; omega) (by push_cast at hmax ⊢; omega)]
      rw [e, storesFrom_three, v0, v1, v2, hi]
      have e3 : 3 * (index + 1) = 3 * index + 3 := by ring
      simp only [e3, List.append_assoc, List.singleton_append, List.cons_append, List.nil_append]
      congr 2
      push_cast; ring

theorem fanLoop_eq (t : IndexT) (vertexStart : Nat) :
    ∀ (n k : Nat) (s : FillState), s.i = 3 * (k : Int) →
      3 * ((k : Int) + n) ≤ INT_MAX →
      fanLoop t vertexStart n (k + 2) s =
        some { i := 3 * ((k : Int) + n),
               stores := s.stores ++ storesFrom (fanValue t vertexStart) (3 * k) (3 * n) } := by
  intro n
  induction n with
  | zero =>
      intro k s hi _
      cases s
      simp_all [fanLoop, storesFrom]
  | succ n ih =>
      intro k s hi hmax
      have hM : INT_MAX = 2147483647 := rfl
      have hm : INT_MIN = -2147483648 := rfl
      have e : 3 * (n + 1) = 3 * n + 3 := by ring
      have v0 : fanValue t vertexStart (3 * k) = t.conv vertexStart := by
        have h1 : 3 * k % 3 = 0 := by omega
        simp [fanValue, h1]
      have v1 : fanValue t vertexStart (3 * k + 1) =
          t.conv (t.arith (t.arith (vertexStart + (k + 2 : Nat)) - 1)) := by
        have h1 : (3 * k + 1) % 3 = 1 := by omega
        have h2 : (3 * k + 1) / 3 = k := by omega
        simp [fanValue, h1, h2]
      have v2 : fanValue t vertexStart (3 * k + 2) =
          t.conv (t.arith (vertexStart + (k + 2 : Nat))) := by
        have h1 : (3 * k + 2) % 3 = 2 := by omega
        have h2 : (3 * k + 2) / 3 = k := by omega
        simp [fanValue, h1, h2]
      rw [fanLoop, put_eq t _ s (by omega) (by push_cast at hmax; omega)]
      simp only [Option.bind_eq_bind, Option.some_bind]
      rw [put_eq t _ _ (by simp only; omega) (by simp only; push_cast at hmax; omega)]
      simp only [Option.some_bind]
      rw [put_eq t _ _ (by simp only; omega) (by simp only; push_cast at hmax; omega)]
      simp only [Option.some_bind]
      have e2 : k + 2 + 1 = (k + 1) + 2 := by ring
      rw [e2, ih (k + 1) _ (by simp only; push_cast; omega) (by push_cast at hmax ⊢; omega)]
      rw [e, storesFrom_three, v0, v1, v2, hi]
      have e3 : 3 * (k + 1) = 3 * k + 3 := by ring
      simp only [e3, List.append_assoc, List.singleton_append, List.cons_append, List.nil_append]
      congr 2
      push_cast; ring

theorem storesFrom_six (value : Nat → Nat) (a m : Nat) :
    storesFrom value a (m + 6) =
      [((a : Int), value a), ((a : Int) + 1, value (a + 1)), ((a : Int) + 2, value (a + 2)),
        ((a : Int) + 3, value (a + 3)), ((a : Int) + 4, value (a + 4)),
        ((a : Int) + 5, value (a + 5))] ++ storesFrom value (a + 6) m := by
  simp [storesFrom, List.range'_succ]
  omega

theorem quadsValue_at (t : IndexT) (vertexStart k j : Nat) (hj : j < 6) :
    quadsValue t vertexStart (6 * k + j) =
      t.conv (t.arith ((t.conv (t.arith (vertexStart + (k : Int) * 4)) : Nat)
        + (quadOffset j : Nat))) := by
  have h1 : (6 * k + j) % 6 = j := by omega
  have h2 : (6 * k + j) / 6 = k := by omega
  simp [quadsValue, h1, h2]

theorem quadsLoop_step (t : IndexT) (vertexStart n : Nat) (i : Int) (stores : List Store)
    (h₀ : 0 ≤ i) (h₁ : i * 6 + 5 ≤ INT_MAX) :
    quadsLoop t vertexStart (n + 1) i stores =
      quadsLoop t vertexStart n (i + 1)
        (stores ++
          [(i * 6 + 0, t.conv (t.arith ((t.conv (t.arith (vertexStart + i * 4)) : Nat) + 0))),
           (i * 6 + 1, t.conv (t.arith ((t.conv (t.arith (vertexStart + i * 4)) : Nat) + 1))),
           (i * 6 + 2, t.conv (t.arith ((t.conv (t.arith (vertexStart + i * 4)) : Nat) + 2))),
           (i * 6 + 3, t.conv (t.arith ((t.conv (t.arith (vertexStart + i * 4)) : Nat) + 2))),
           (i * 6 + 4, t.conv (t.arith ((t.conv (t.arith (vertexStart + i * 4)) : Nat) + 1))),
           (i * 6 + 5, t.conv (t.arith ((t.conv (t.arith (vertexStart + i * 4)) : Nat) + 3)))]) := by
  have hM : INT_MAX = 2147483647 := rfl
  have hm : INT_MIN = -2147483648 := rfl
  have r6 := intResult_of_range (x := i * 6) (by omega) (by omega)
  have ri4 := intResult_of_range (x := i * 4) (by omega) (by omega)
  have r0 := intResult_of_range (x := i * 6 + 0) (by omega) (by omega)
  have r1 := intResult_of_range (x := i * 6 + 1) (by omega) (by omega)
  have r2 := intResult_of_range (x := i * 6 + 2) (by omega) (by omega)
  have r3 := intResult_of_range (x := i * 6 + 3) (by omega) (by omega)
  have r4 := intResult_of_range (x := i * 6 + 4) (by omega) (by omega)
  have r5 := intResult_of_range (x := i * 6 + 5) (by omega) (by omega)
  have rn := intResult_of_range (x := i + 1) (by omega) (by omega)
  simp only [quadsLoop, Option.bind_eq_bind, r6, ri4, r0, r1, r2, r3, r4, r5, rn, Option.some_bind]

theorem quadsLoop_eq (t : IndexT) (vertexStart : Nat) :
    ∀ (n k : Nat) (stores : List Store), 6 * ((k : Int) + n) ≤ INT_MAX →
      quadsLoop t vertexStart n (k : Int) stores =
        some (stores ++ storesFrom (quadsValue t vertexStart) (6 * k) (6 * n)) := by
  intro n
  induction n with
  | zero =>
      intro k stores _
      simp [quadsLoop, storesFrom]
  | succ n ih =>
      intro k stores hmax
      have hM : INT_MAX = 2147483647 := rfl
      push_cast at hmax
      have e : 6 * (n + 1) = 6 * n + 6 := by ring
      have e3 : 6 * (k + 1) = 6 * k + 6 := by ring
      have q0 := quadsValue_at t vertexStart k 0 (by omega)
      have q1 := quadsValue_at t vertexStart k 1 (by omega)
      have q2 := quadsValue_at t vertexStart k 2 (by omega)
      have q3 := quadsValue_at t vertexStart k 3 (by omega)
      have q4 := quadsValue_at t vertexStart k 4 (by omega)
      have q5 := quadsValue_at t vertexStart k 5 (by omega)
      simp only [quadOffset] at q0 q1 q2 q3 q4 q5
      norm_num at q0 q1 q2 q3 q4 q5
      have ek : ((k : Int) + 1) = ((k + 1 : Nat) : Int) := by push_cast; ring
      rw [quadsLoop_step t vertexStart n k stores (by omega) (by omega), ek,
        ih (k + 1) _ (by push_cast; omega), e, storesFrom_six, e3, q0, q1, q2, q3, q4, q5]
      simp only [List.append_assoc]
      congr 2
      simp
      ring

/-! ## What a successful loop says about the cursor -/

theorem put_some {t : IndexT} {v : Int} {s r : FillState} (h : put t v s = some r) :
    r.i = s.i + 1 ∧ r.i ≤ INT_MAX := by
  unfold put intResult at h
  split_ifs at h with hc
  · simp only [Option.bind_eq_bind, Option.some_bind, Option.some.injEq] at h
    subst h
    exact ⟨rfl, hc.2⟩
  · simp at h

theorem stripLoop_some (t : IndexT) (vertexStart : Nat) :
    ∀ (n index : Nat) (s r : FillState), stripLoop t vertexStart n index s = some r →
      r.i = s.i + 3 * n ∧ (s.i ≤ INT_MAX → r.i ≤ INT_MAX) := by
  intro n
  induction n with
  | zero =>
      intro index s r h
      simp only [stripLoop, Option.some.injEq] at h
      subst h
      simp
  | succ n ih =>
      intro index s r h
      rw [stripLoop] at h
      simp only [Option.bind_eq_bind, Option.bind_eq_some] at h
      obtain ⟨s₁, h₁, s₂, h₂, s₃, h₃, h₄⟩ := h
      have a₁ := put_some h₁
      have a₂ := put_some h₂
      have a₃ := put_some h₃
      have a₄ := ih _ _ _ h₄
      refine ⟨by push_cast; omega, fun _ => a₄.2 a₃.2⟩

theorem fanLoop_some (t : IndexT) (vertexStart : Nat) :
    ∀ (n index : Nat) (s r : FillState), fanLoop t vertexStart n index s = some r →
      r.i = s.i + 3 * n ∧ (s.i ≤ INT_MAX → r.i ≤ INT_MAX) := by
  intro n
  induction n with
  | zero =>
      intro index s r h
      simp only [fanLoop, Option.some.injEq] at h
      subst h
      simp
  | succ n ih =>
      intro index s r h
      rw [fanLoop] at h
      simp only [Option.bind_eq_bind, Option.bind_eq_some] at h
      obtain ⟨s₁, h₁, s₂, h₂, s₃, h₃, h₄⟩ := h
      have a₁ := put_some h₁
      have a₂ := put_some h₂
      have a₃ := put_some h₃
      have a₄ := ih _ _ _ h₄
      refine ⟨by push_cast; omega, fun _ => a₄.2 a₃.2⟩

theorem intResult_some {x y : Int} (h : intResult x = some y) : y = x ∧ x ≤ INT_MAX := by
  unfold intResult at h
  split_ifs at h with hc
  · simp only [Option.some.injEq] at h
    exact ⟨h.symm, hc.2⟩

theorem quadsLoop_some (t : IndexT) (vertexStart : Nat) :
    ∀ (n : Nat) (i : Int) (stores r : List Store),
      quadsLoop t vertexStart (n + 1) i stores = some r → (i + n) * 6 + 5 ≤ INT_MAX := by
  intro n
  induction n with
  | zero =>
      intro i stores r h
      rw [quadsLoop] at h
      simp only [Option.bind_eq_bind, Option.bind_eq_some] at h
      obtain ⟨ii, h₁, i4, _, p0, _, p1, _, p2, _, p3, _, p4, _, p5, h₅, _⟩ := h
      have a₁ := intResult_some h₁
      have a₅ := intResult_some h₅
      push_cast
      omega
  | succ n ih =>
      intro i stores r h
      rw [quadsLoop] at h
      simp only [Option.bind_eq_bind, Option.bind_eq_some] at h
      obtain ⟨ii, _, i4, _, p0, _, p1, _, p2, _, p3, _, p4, _, p5, _, next, h₆, h₇⟩ := h
      have a₆ := intResult_some h₆
      have a₇ := ih _ _ _ h₇
      push_cast
      omega

/-! ## The stores of a whole fill -/

theorem fillIndices_strip (t : IndexT) (vertexStart vertexCount : Nat)
    (h : 3 * ((t.arith ((vertexCount : Int) - 2) - 0).toNat : Int) ≤ INT_MAX) :
    fillIndices t .STRIP vertexStart vertexCount =
      some (storesFrom (stripValue t vertexStart) 0
        (3 * (t.arith ((vertexCount : Int) - 2) - 0).toNat)) := by
  have := stripLoop_eq t vertexStart (t.arith ((vertexCount : Int) - 2) - 0).toNat 0
    { i := 0, stores := [] } (by simp) (by simpa using h)
  simp only [fillIndices, fillIndicesT, this, Option.map_some', Nat.mul_zero, List.nil_append]

theorem fillIndices_strip_none (t : IndexT) (vertexStart vertexCount : Nat)
    (h : INT_MAX < 3 * ((t.arith ((vertexCount : Int) - 2) - 0).toNat : Int)) :
    fillIndices t .STRIP vertexStart vertexCount = none := by
  cases hr : stripLoop t vertexStart (t.arith ((vertexCount : Int) - 2) - 0).toNat 0
    { i := 0, stores := [] } with
  | none => simp only [fillIndices, fillIndicesT, hr, Option.map_none']
  | some r =>
      have a := stripLoop_some t vertexStart _ _ _ _ hr
      have hM : INT_MAX = 2147483647 := rfl
      have := a.2 (by simp [hM])
      simp only at a
      omega

theorem fillIndices_fan (t : IndexT) (vertexStart vertexCount : Nat)
    (h : 3 * ((vertexCount : Int) - 2) ≤ INT_MAX) :
    fillIndices t .FAN vertexStart vertexCount =
      some (storesFrom (fanValue t vertexStart) 0 (3 * (vertexCount - 2))) := by
  have hM : INT_MAX = 2147483647 := rfl
  have e : ((vertexCount : Int) - 2).toNat = vertexCount - 2 := by omega
  have := fanLoop_eq t vertexStart (vertexCount - 2) 0
    { i := 0, stores := [] } (by simp) (by omega)
  simp [fillIndices, fillIndicesT, e, this]

theorem fillIndices_fan_none (t : IndexT) (vertexStart vertexCount : Nat)
    (h : INT_MAX < 3 * ((vertexCount : Int) - 2)) :
    fillIndices t .FAN vertexStart vertexCount = none := by
  cases hr : fanLoop t vertexStart ((vertexCount : Int) - 2).toNat 2
    { i := 0, stores := [] } with
  | none => simp [fillIndices, fillIndicesT, hr]
  | some r =>
      have a := fanLoop_some t vertexStart _ _ _ _ hr
      have hM : INT_MAX = 2147483647 := rfl
      have := a.2 (by simp [hM])
      simp only at a
      omega

theorem fillIndices_quads (t : IndexT) (vertexStart vertexCount : Nat)
    (h : 6 * ((vertexCount / 4 : Nat) : Int) ≤ INT_MAX) :
    fillIndices t .QUADS vertexStart vertexCount =
      some (storesFrom (quadsValue t vertexStart) 0 (6 * (vertexCount / 4))) := by
  have hM : INT_MAX = 2147483647 := rfl
  have hm : INT_MIN = -2147483648 := rfl
  have r := intResult_of_range (x := ((vertexCount / 4 : Nat) : Int)) (by omega) (by omega)
  have := quadsLoop_eq t vertexStart (vertexCount / 4) 0 [] (by push_cast; omega)
  simp only [Nat.cast_zero] at this
  simp only [fillIndices, fillIndicesT, r, Option.bind_eq_bind, Option.some_bind, sub_zero,
    Int.toNat_ofNat, this, Nat.mul_zero, List.nil_append]

theorem fillIndices_quads_none (t : IndexT) (vertexStart vertexCount : Nat)
    (h : INT_MAX < 6 * ((vertexCount / 4 : Nat) : Int)) :
    fillIndices t .QUADS vertexStart vertexCount = none := by
  have hM : INT_MAX = 2147483647 := rfl
  cases hc : intResult ((vertexCount / 4 : Nat) : Int) with
  | none => simp only [fillIndices, fillIndicesT, hc, Option.bind_eq_bind, Option.none_bind]
  | some count =>
      have hcount := (intResult_some hc).1
      subst hcount
      obtain ⟨n, hn⟩ : ∃ n, vertexCount / 4 = n + 1 := ⟨vertexCount / 4 - 1, by omega⟩
      cases hr : quadsLoop t vertexStart (n + 1) 0 [] with
      | none =>
          rw [hn] at hc
          simp only [fillIndices, fillIndicesT, hn, hc, Option.bind_eq_bind, Option.some_bind,
            sub_zero, Int.toNat_ofNat, hr]
      | some r =>
          have a := quadsLoop_some t vertexStart _ _ _ _ hr
          rw [hn] at h
          push_cast at h
          omega

theorem fillIndices_none_mode (t : IndexT) (vertexStart vertexCount : Nat) :
    fillIndices t .NONE vertexStart vertexCount = some [] := rfl

/-! ## The buffer left by a sequence of stores -/

theorem storesFrom_succ (value : Nat → Nat) (a m : Nat) :
    storesFrom value a (m + 1) =
      storesFrom value a m ++ [(((a + m : Nat) : Int), value (a + m))] := by
  simp [storesFrom, List.range'_concat]

theorem written_storesFrom (value : Nat → Nat) (a m q : Nat) :
    written (storesFrom value a m) (q : Int) =
      if a ≤ q ∧ q < a + m then some (value q) else none := by
  induction m with
  | zero =>
      have : ¬ (a ≤ q ∧ q < a + 0) := by omega
      simp only [this, if_false]
      rfl
  | succ m ih =>
      rw [storesFrom_succ]
      unfold written at ih ⊢
      rw [List.foldl_append, ih]
      simp only [List.foldl_cons, List.foldl_nil]
      by_cases hq : a + m = q
      · subst hq
        simp
      · have hq' : ¬ (((a + m : Nat) : Int) = (q : Int)) := by omega
        have e : (a ≤ q ∧ q < a + (m + 1)) ↔ (a ≤ q ∧ q < a + m) := by omega
        simp only [hq', if_false, e]

theorem positions_storesFrom (value : Nat → Nat) (m : Nat) :
    (storesFrom value 0 m).map Prod.fst = (List.range m).map fun (p : Nat) => (p : Int) := by
  simp [storesFrom, List.range_eq_range']

/-! ## Exact values when the run fits the element type -/

theorem stripValue_exact (t : IndexT) (vertexStart i : Nat)
    (h : (vertexStart : Int) + i + 2 < t.modulus) :
    stripValue t vertexStart (3 * i) = vertexStart + i ∧
    stripValue t vertexStart (3 * i + 1) = vertexStart + i + 1 + (i &&& 1) ∧
    stripValue t vertexStart (3 * i + 2) = vertexStart + i + 2 - (i &&& 1) := by
  have h0 : 3 * i % 3 = 0 := by omega
  have h1 : (3 * i + 1) % 3 = 1 := by omega
  have h2 : (3 * i + 2) % 3 = 2 := by omega
  have d0 : 3 * i / 3 = i := by omega
  have d1 : (3 * i + 1) / 3 = i := by omega
  have d2 : (3 * i + 2) / 3 = i := by omega
  have hb : i % 2 < 2 := Nat.mod_lt _ (by decide)
  cases t <;>
    simp only [stripValue, h0, h1, h2, d0, d1, d2, IndexT.conv, IndexT.arith, IndexT.modulus,
      Nat.and_one_is_mod, if_true, if_false, one_ne_zero, OfNat.ofNat_ne_zero,
      OfNat.ofNat_ne_one] at h ⊢ <;>
    omega

theorem fanValue_exact (t : IndexT) (vertexStart k : Nat)
    (h : (vertexStart : Int) + k + 2 < t.modulus) :
    fanValue t vertexStart (3 * k) = vertexStart ∧
    fanValue t vertexStart (3 * k + 1) = vertexStart + (k + 2) - 1 ∧
    fanValue t vertexStart (3 * k + 2) = vertexStart + (k + 2) := by
  have h0 : 3 * k % 3 = 0 := by omega
  have h1 : (3 * k + 1) % 3 = 1 := by omega
  have h2 : (3 * k + 2) % 3 = 2 := by omega
  have d1 : (3 * k + 1) / 3 = k := by omega
  have d2 : (3 * k + 2) / 3 = k := by omega
  cases t <;>
    simp only [fanValue, h0, h1, h2, d1, d2, IndexT.conv, IndexT.arith, IndexT.modulus,
      if_true, if_false, one_ne_zero, OfNat.ofNat_ne_zero, OfNat.ofNat_ne_one] at h ⊢ <;>
    omega

theorem quadsValue_exact (t : IndexT) (vertexStart g j : Nat) (hj : j < 6)
    (h : (vertexStart : Int) + 4 * g + 3 < t.modulus) :
    quadsValue t vertexStart (6 * g + j) = vertexStart + 4 * g + quadOffset j := by
  have hq : quadOffset j ≤ 3 := by
    unfold quadOffset
    split_ifs <;> omega
  rw [quadsValue_at t vertexStart g j hj]
  cases t <;>
    simp only [IndexT.conv, IndexT.arith, IndexT.modulus] at h ⊢ <;>
    omega

/-! ## Every mode at once -/

theorem fillIndices_eq (t : IndexT) (mode : TriangleIndexMode) (vertexStart vertexCount : Nat)
    (h : (storeCount t mode vertexCount : Int) ≤ INT_MAX) :
    fillIndices t mode vertexStart vertexCount =
      some (storesFrom (modeValue t mode vertexStart) 0 (storeCount t mode vertexCount)) := by
  have hM : INT_MAX = 2147483647 := rfl
  cases mode with
  | NONE => rfl
  | STRIP =>
      simp only [storeCount] at h
      exact fillIndices_strip t vertexStart vertexCount (by exact_mod_cast h)
  | FAN =>
      simp only [storeCount] at h
      have e : ((vertexCount : Int) - 2).toNat = vertexCount - 2 := by omega
      have := fillIndices_fan t vertexStart vertexCount (by omega)
      simpa only [storeCount, modeValue, e] using this
  | QUADS =>
      simp only [storeCount] at h
      exact fillIndices_quads t vertexStart vertexCount (by exact_mod_cast h)

theorem fillIndices_eq_none (t : IndexT) (mode : TriangleIndexMode)
    (vertexStart vertexCount : Nat)
    (h : INT_MAX < (storeCount t mode vertexCount : Int)) :
    fillIndices t mode vertexStart vertexCount = none := by
  have hM : INT_MAX = 2147483647 := rfl
  cases mode with
  | NONE => simp [storeCount, hM] at h
  | STRIP =>
      simp only [storeCount] at h
      exact fillIndices_strip_none t vertexStart vertexCount (by exact_mod_cast h)
  | FAN =>
      simp only [storeCount] at h
      exact fillIndices_fan_none t vertexStart vertexCount (by push_cast at h; omega)
  | QUADS =>
      simp only [storeCount] at h
      exact fillIndices_quads_none t vertexStart vertexCount (by exact_mod_cast h)

theorem quadOffset_eq (j : Nat) (hj : j < 6) :
    quadOffset j = [0, 1, 2, 2, 1, 3].getD j 0 := by
  interval_cases j <;> rfl

/-- Below the number of stores of a run that fits the element type, the stored value is
`vertexStart` plus the local index of the emission rule, with no reduction. -/
theorem modeValue_local (t : IndexT) (mode : TriangleIndexMode)
    (vertexStart vertexCount p : Nat)
    (hrep : (vertexStart : Int) + vertexCount - 1 < t.modulus)
    (hp : p < emissionCount mode vertexCount) :
    modeValue t mode vertexStart p = vertexStart + emissionLocalIndex mode p := by
  cases mode with
  | NONE => simp [emissionCount] at hp
  | STRIP =>
      simp only [emissionCount] at hp
      obtain ⟨v0, v1, v2⟩ := stripValue_exact t vertexStart (p / 3) (by omega)
      have hc : p % 3 = 0 ∨ p % 3 = 1 ∨ p % 3 = 2 := by omega
      rcases hc with h | h | h
      · have e : p = 3 * (p / 3) := by omega
        rw [modeValue, e, v0, emissionLocalIndex, ← e, if_pos h]
      · have e : p = 3 * (p / 3) + 1 := by omega
        rw [modeValue, e, v1, emissionLocalIndex, ← e, if_neg (by omega), if_pos h]
        omega
      · have e : p = 3 * (p / 3) + 2 := by omega
        have hb : (p / 3 &&& 1) ≤ 1 := by rw [Nat.and_one_is_mod]; omega
        rw [modeValue, e, v2, emissionLocalIndex, ← e, if_neg (by omega), if_neg (by omega)]
        omega
  | FAN =>
      simp only [emissionCount] at hp
      obtain ⟨v0, v1, v2⟩ := fanValue_exact t vertexStart (p / 3) (by omega)
      have hc : p % 3 = 0 ∨ p % 3 = 1 ∨ p % 3 = 2 := by omega
      rcases hc with h | h | h
      · have e : p = 3 * (p / 3) := by omega
        rw [modeValue, e, v0, emissionLocalIndex, ← e, if_pos h]
        rfl
      · have e : p = 3 * (p / 3) + 1 := by omega
        rw [modeValue, e, v1, emissionLocalIndex, ← e, if_neg (by omega), if_pos h]
        omega
      · have e : p = 3 * (p / 3) + 2 := by omega
        rw [modeValue, e, v2, emissionLocalIndex, ← e, if_neg (by omega), if_neg (by omega)]
  | QUADS =>
      simp only [emissionCount] at hp
      have e : p = 6 * (p / 6) + p % 6 := by omega
      have hj : p % 6 < 6 := by omega
      have := quadsValue_exact t vertexStart (p / 6) (p % 6) hj (by omega)
      rw [← e] at this
      rw [modeValue, this, emissionLocalIndex, quadOffset_eq _ hj]
      omega

theorem storesFrom_congr (v w : Nat → Nat) (g : Nat → Nat) (a m : Nat)
    (h : ∀ p, a ≤ p → p < a + m → w p = g (v p)) :
    storesFrom w a m = (storesFrom v a m).map fun st => (st.1, g st.2) := by
  unfold storesFrom
  rw [List.map_map]
  apply List.map_congr_left
  intro p hp
  rw [List.mem_range'_1] at hp
  simp [h p hp.1 hp.2]

theorem mem_storesFrom {value : Nat → Nat} {m : Nat} {st : Store}
    (h : st ∈ storesFrom value 0 m) : ∃ p : Nat, p < m ∧ st = ((p : Int), value p) := by
  unfold storesFrom at h
  rw [List.mem_map] at h
  obtain ⟨p, hp, rfl⟩ := h
  rw [List.mem_range'_1] at hp
  exact ⟨p, by omega, rfl⟩

theorem storeCount_eq_emissionCount (t : IndexT) (mode : TriangleIndexMode)
    (vertexCount : Nat) (hvc : (vertexCount : Int) ≤ t.modulus)
    (hmin : t = .uint32 → mode = .STRIP → 2 ≤ vertexCount) :
    storeCount t mode vertexCount = emissionCount mode vertexCount := by
  cases mode with
  | NONE => rfl
  | STRIP =>
      cases t with
      | uint16 => simp only [storeCount, emissionCount, IndexT.arith]; omega
      | uint32 =>
          have := hmin rfl rfl
          simp only [IndexT.modulus] at hvc
          simp only [storeCount, emissionCount, IndexT.arith]
          omega
  | FAN => simp only [storeCount, emissionCount]; omega
  | QUADS => rfl

theorem emissionCount_le (mode : TriangleIndexMode) (vertexCount : Nat) :
    emissionCount mode vertexCount ≤ 3 * vertexCount := by
  cases mode <;> simp only [emissionCount] <;> omega

/-! ## Loop iterations, completed fills and the emission rule -/

theorem storeCount_eq_loopIterations (t : IndexT) (mode : TriangleIndexMode)
    (vertexCount : Nat) :
    storeCount t mode vertexCount =
      (if mode = .QUADS then 6 else 3) * loopIterations t mode vertexCount := by
  cases mode <;> simp [storeCount, loopIterations]

theorem mem_storesFrom_of_lt (value : Nat → Nat) {m p : Nat} (h : p < m) :
    ((p : Int), value p) ∈ storesFrom value 0 m := by
  unfold storesFrom
  rw [List.mem_map]
  exact ⟨p, by rw [List.mem_range'_1]; omega, rfl⟩

theorem emissionLocalIndex_lt (mode : TriangleIndexMode) (vertexCount p : Nat)
    (hp : p < emissionCount mode vertexCount) :
    emissionLocalIndex mode p < vertexCount := by
  cases mode with
  | NONE => simp [emissionCount] at hp
  | STRIP =>
      simp only [emissionCount] at hp
      simp only [emissionLocalIndex, Nat.and_one_is_mod]
      split_ifs <;> omega
  | FAN =>
      simp only [emissionCount] at hp
      simp only [emissionLocalIndex]
      split_ifs <;> omega
  | QUADS =>
      simp only [emissionCount] at hp
      have hj : p % 6 < 6 := by omega
      have hq : quadOffset (p % 6) ≤ 3 := by
        unfold quadOffset
        split_ifs <;> omega
      rw [emissionLocalIndex, ← quadOffset_eq _ hj]
      omega

/-- Whatever a fill stores, when it runs to completion, is described by `modeValue`:
the stores are at positions `0 .. storeCount - 1`, in order. -/
theorem fillIndices_some (t : IndexT) (mode : TriangleIndexMode)
    (vertexStart vertexCount : Nat) (stores : List Store)
    (h : fillIndices t mode vertexStart vertexCount = some stores) :
    (storeCount t mode vertexCount : Int) ≤ INT_MAX ∧
    stores = storesFrom (modeValue t mode vertexStart) 0 (storeCount t mode vertexCount) := by
  by_cases hc : (storeCount t mode vertexCount : Int) ≤ INT_MAX
  · rw [fillIndices_eq t mode vertexStart vertexCount hc] at h
    exact ⟨hc, (Option.some.inj h).symm⟩
  · rw [fillIndices_eq_none t mode vertexStart vertexCount (by omega)] at h
    cases h

theorem emissionLocalIndex_strip (k : Nat) :
    emissionLocalIndex .STRIP (3 * k) = k ∧
    emissionLocalIndex .STRIP (3 * k + 1) = k + 1 + k % 2 ∧
    emissionLocalIndex .STRIP (3 * k + 2) = k + 2 - k % 2 := by
  have h0 : 3 * k % 3 = 0 := by omega
  have h1 : (3 * k + 1) % 3 = 1 := by omega
  have h2 : (3 * k + 2) % 3 = 2 := by omega
  have d0 : 3 * k / 3 = k := by omega
  have d1 : (3 * k + 1) / 3 = k := by omega
  have d2 : (3 * k + 2) / 3 = k := by omega
  simp [emissionLocalIndex, h0, h1, h2, d0, d1, d2, Nat.and_one_is_mod]

theorem emissionLocalIndex_fan (k : Nat) :
    emissionLocalIndex .FAN (3 * k) = 0 ∧
    emissionLocalIndex .FAN (3 * k + 1) = k + 1 ∧
    emissionLocalIndex .FAN (3 * k + 2) = k + 2 := by
  have h0 : 3 * k % 3 = 0 := by omega
  have h1 : (3 * k + 1) % 3 = 1 := by omega
  have h2 : (3 * k + 2) % 3 = 2 := by omega
  have d1 : (3 * k + 1) / 3 = k := by omega
  have d2 : (3 * k + 2) / 3 = k := by omega
  simp [emissionLocalIndex, h0, h1, h2, d1, d2]

theorem emissionLocalIndex_quads (g j : Nat) (hj : j < 6) :
    emissionLocalIndex .QUADS (6 * g + j) = 4 * g + quadOffset j := by
  have h1 : (6 * g + j) % 6 = j := by omega
  have h2 : (6 * g + j) / 6 = g := by omega
  rw [emissionLocalIndex, h1, h2, quadOffset_eq j hj]

theorem strip_min_of_storeCount (vertexCount : Nat)
    (hvc : (vertexCount : Int) ≤ IndexT.uint32.modulus)
    (h : (storeCount .uint32 .STRIP vertexCount : Int) ≤ INT_MAX) : 2 ≤ vertexCount := by
  have hM : INT_MAX = 2147483647 := rfl
  simp only [IndexT.modulus] at hvc
  simp only [storeCount, IndexT.arith] at h
  omega

/-- A fill that runs to completion on a run that fits the element type stores, at
position `p`, `vertexStart` plus the local index of the emission rule; the positions are
`0 .. emissionCount - 1`. -/
theorem fillIndices_some_local (t : IndexT) (mode : TriangleIndexMode)
    (vertexStart vertexCount : Nat) (stores : List Store)
    (hrep : (vertexStart : Int) + vertexCount - 1 < t.modulus)
    (h : fillIndices t mode vertexStart vertexCount = some stores) :
    (emissionCount mode vertexCount : Int) ≤ INT_MAX ∧
    stores = storesFrom (fun p => vertexStart + emissionLocalIndex mode p) 0
      (emissionCount mode vertexCount) := by
  obtain ⟨hmax, hs⟩ := fillIndices_some t mode vertexStart vertexCount stores h
  have hvc : (vertexCount : Int) ≤ t.modulus := by omega
  have hplain := storeCount_eq_emissionCount t mode vertexCount hvc (by
    rintro rfl rfl
    exact strip_min_of_storeCount vertexCount hvc hmax)
  rw [hplain] at hmax hs
  refine ⟨hmax, ?_⟩
  rw [hs]
  have := storesFrom_congr (fun p => vertexStart + emissionLocalIndex mode p)
    (modeValue t mode vertexStart) id 0 (emissionCount mode vertexCount) (by
      intro p _ hp
      rw [Nat.zero_add] at hp
      exact modeValue_local t mode vertexStart vertexCount p hrep hp)
  rw [this]
  simp

theorem quadOffset_values :
    quadOffset 0 = 0 ∧ quadOffset 1 = 1 ∧ quadOffset 2 = 2 ∧ quadOffset 3 = 2 ∧
      quadOffset 4 = 1 ∧ quadOffset 5 = 3 := by
  decide

/-- Every local vertex index of a full run is produced by the emission rule at some
position below the index count. -/
theorem emissionLocalIndex_cover (mode : TriangleIndexMode) (vertexCount j : Nat)
    (hmode : ((mode = .STRIP ∨ mode = .FAN) ∧ 3 ≤ vertexCount) ∨
      (mode = .QUADS ∧ 0 < vertexCount ∧ vertexCount % 4 = 0))
    (hj : j < vertexCount) :
    ∃ p, p < emissionCount mode vertexCount ∧ emissionLocalIndex mode p = j := by
  rcases hmode with ⟨hm | hm, h3⟩ | ⟨hm, hpos, h4⟩
  · subst hm
    simp only [emissionCount]
    by_cases hlow : j + 3 ≤ vertexCount
    · exact ⟨3 * j, by omega, (emissionLocalIndex_strip j).1⟩
    · obtain ⟨_, e1, e2⟩ := emissionLocalIndex_strip (vertexCount - 3)
      have hpar : (vertexCount - 3) % 2 = 0 ∨ (vertexCount - 3) % 2 = 1 := by omega
      by_cases hlast : j + 1 = vertexCount
      · rcases hpar with hp | hp
        · exact ⟨3 * (vertexCount - 3) + 2, by omega, by rw [e2]; omega⟩
        · exact ⟨3 * (vertexCount - 3) + 1, by omega, by rw [e1]; omega⟩
      · rcases hpar with hp | hp
        · exact ⟨3 * (vertexCount - 3) + 1, by omega, by rw [e1]; omega⟩
        · exact ⟨3 * (vertexCount - 3) + 2, by omega, by rw [e2]; omega⟩
  · subst hm
    simp only [emissionCount]
    by_cases h0 : j = 0
    · exact ⟨3 * 0, by omega, by rw [(emissionLocalIndex_fan 0).1, h0]⟩
    · by_cases h1 : j = 1
      · exact ⟨3 * 0 + 1, by omega, by rw [(emissionLocalIndex_fan 0).2.1, h1]⟩
      · exact ⟨3 * (j - 2) + 2, by omega, by rw [(emissionLocalIndex_fan (j - 2)).2.2]; omega⟩
  · subst hm
    simp only [emissionCount]
    obtain ⟨q0, q1, q2, _, _, q5⟩ := quadOffset_values
    have hr : j % 4 = 0 ∨ j % 4 = 1 ∨ j % 4 = 2 ∨ j % 4 = 3 := by omega
    rcases hr with hr | hr | hr | hr
    · exact ⟨6 * (j / 4) + 0, by omega,
        by rw [emissionLocalIndex_quads _ 0 (by omega), q0]; omega⟩
    · exact ⟨6 * (j / 4) + 1, by omega,
        by rw [emissionLocalIndex_quads _ 1 (by omega), q1]; omega⟩
    · exact ⟨6 * (j / 4) + 2, by omega,
        by rw [emissionLocalIndex_quads _ 2 (by omega), q2]; omega⟩
    · exact ⟨6 * (j / 4) + 5, by omega,
        by rw [emissionLocalIndex_quads _ 5 (by omega), q5]; omega⟩

/-! ## Format flags and registries -/

theorem attribFlags_lt (b : AttribBits) (hp : b.pos < 32) (ht : b.texcoord < 32)
    (hc : b.color < 32) :
    ATTRIBFLAG_POS b < 4294967296 ∧ ATTRIBFLAG_TEXCOORD b < 4294967296 ∧
      ATTRIBFLAG_COLOR b < 4294967296 := by
  have e : (4294967296 : Nat) = 2 ^ 32 := by norm_num
  simp only [ATTRIBFLAG_POS, ATTRIBFLAG_TEXCOORD, ATTRIBFLAG_COLOR, Nat.one_shiftLeft, e]
  exact ⟨Nat.pow_lt_pow_right (by decide) hp, Nat.pow_lt_pow_right (by decide) ht,
    Nat.pow_lt_pow_right (by decide) hc⟩

theorem getFormatFlags_eq (b : AttribBits) (hp : b.pos < 32) (ht : b.texcoord < 32)
    (hc : b.color < 32) (format : CommonFormat) :
    getFormatFlags b format =
      (match format with
        | .NONE => 0
        | .XYf => ATTRIBFLAG_POS b
        | .RGBAub => ATTRIBFLAG_COLOR b
        | .XYf_STf => ATTRIBFLAG_POS b ||| ATTRIBFLAG_TEXCOORD b
        | .XYf_STf_RGBAub => ATTRIBFLAG_POS b ||| ATTRIBFLAG_TEXCOORD b ||| ATTRIBFLAG_COLOR b
        | .XYf_STus_RGBAub =>
            ATTRIBFLAG_POS b ||| ATTRIBFLAG_TEXCOORD b ||| ATTRIBFLAG_COLOR b) := by
  obtain ⟨lp, lt, lc⟩ := attribFlags_lt b hp ht hc
  have e : (4294967296 : Nat) = 2 ^ 32 := by norm_num
  rw [e] at lp lt lc
  have l2 := Nat.or_lt_two_pow lp lt
  have l3 := Nat.or_lt_two_pow l2 lc
  unfold getFormatFlags
  rw [e]
  cases format <;> simp only <;> apply Nat.mod_eq_of_lt <;> first | assumption | positivity

theorem testBit_attribFlags (b : AttribBits) (i : Nat) :
    ((ATTRIBFLAG_POS b).testBit i = decide (b.pos = i)) ∧
    ((ATTRIBFLAG_TEXCOORD b).testBit i = decide (b.texcoord = i)) ∧
    ((ATTRIBFLAG_COLOR b).testBit i = decide (b.color = i)) := by
  simp only [ATTRIBFLAG_POS, ATTRIBFLAG_TEXCOORD, ATTRIBFLAG_COLOR, Nat.one_shiftLeft,
    Nat.testBit_two_pow, and_self]

theorem find_eq_some_iff {T : Type} (l : List (String × T))
    (hnd : (l.map Prod.fst).Nodup) (key : String) (value : T) :
    StringMap.find { entries := l } key = some value ↔ (key, value) ∈ l := by
  induction l with
  | nil => simp [StringMap.find]
  | cons e l ih =>
      obtain ⟨k, w⟩ := e
      rw [List.map_cons, List.nodup_cons] at hnd
      have ih' := ih hnd.2
      simp only [StringMap.find] at ih' ⊢
      by_cases hk : k = key
      · subst hk
        have hnot : (k, value) ∉ l := fun hmem => hnd.1 (List.mem_map.mpr ⟨_, hmem, rfl⟩)
        simp [List.find?_cons, hnot]
        exact eq_comm
      · have hne : ¬ (key = k) := fun h => hk h.symm
        simp only [List.find?_cons, hk, decide_False, List.mem_cons, Prod.mk.injEq, hne,
          false_and, false_or]
        exact ih'

theorem findKey_eq_some_iff {T : Type} [DecidableEq T] (l : List (String × T))
    (hnd : (l.map Prod.snd).Nodup) (value : T) (key : String) :
    StringMap.findKey { entries := l } value = some key ↔ (key, value) ∈ l := by
  induction l with
  | nil => simp [StringMap.findKey]
  | cons e l ih =>
      obtain ⟨k, w⟩ := e
      rw [List.map_cons, List.nodup_cons] at hnd
      have ih' := ih hnd.2
      simp only [StringMap.findKey] at ih' ⊢
      by_cases hw : w = value
      · subst hw
        have hnot : (key, w) ∉ l := fun hmem => hnd.1 (List.mem_map.mpr ⟨_, hmem, rfl⟩)
        simp [List.find?_cons, hnot]
        exact eq_comm
      · have hne : ¬ (value = w) := fun h => hw h.symm
        simp only [List.find?_cons, hw, decide_False, List.mem_cons, Prod.mk.injEq, hne,
          and_false, false_or]
        exact ih'

/-! ## The claims -/

/-- Claim C1 (amended): whenever `getIndexCount(mode, vertexCount)` is computed without
`int` overflow and the run meets the mode's precondition (at least 2 vertices for STRIP
and FAN, a multiple of 4 for QUADS, anything for NONE), either overload of `fillIndices`
runs to completion and makes exactly `getIndexCount(mode, vertexCount)` stores, at the
buffer positions `0, 1, ..., getIndexCount - 1` in this order, so each of these positions
is written exactly once and no other position is written. -/
theorem fillIndices_writes_getIndexCount (t : IndexT) (mode : TriangleIndexMode)
    (vertexStart vertexCount : Nat) (n : Int)
    (hpre : match mode with
      | .NONE => True
      | .STRIP => 2 ≤ vertexCount
      | .FAN => 2 ≤ vertexCount
      | .QUADS => vertexCount % 4 = 0)
    (hcount : getIndexCount mode (vertexCount : Int) = some n) :
    ∃ stores, fillIndices t mode vertexStart vertexCount = some stores ∧
      (stores.length : Int) = n ∧
      stores.map Prod.fst = (List.range stores.length).map fun (p : Nat) => (p : Int) := by
  have hM : INT_MAX = 2147483647 := rfl
  have hm : INT_MIN = -2147483648 := rfl
  cases mode with
  | NONE =>
      simp only [getIndexCount, Option.some.injEq] at hcount
      exact ⟨[], rfl, by simp [← hcount], by simp⟩
  | STRIP =>
      simp only at hpre
      simp only [getIndexCount, Option.bind_eq_bind, Option.bind_eq_some] at hcount
      obtain ⟨d, hd, hn⟩ := hcount
      have a₁ := intResult_some hd
      have a₂ := intResult_some hn
      have e : (t.arith ((vertexCount : Int) - 2) - 0).toNat = vertexCount - 2 := by
        cases t <;> simp only [IndexT.arith] <;> omega
      refine ⟨_, fillIndices_strip t vertexStart vertexCount (by rw [e]; omega), ?_, ?_⟩
      · rw [length_storesFrom, e]; omega
      · rw [length_storesFrom, positions_storesFrom]
  | FAN =>
      simp only at hpre
      simp only [getIndexCount, Option.bind_eq_bind, Option.bind_eq_some] at hcount
      obtain ⟨d, hd, hn⟩ := hcount
      have a₁ := intResult_some hd
      have a₂ := intResult_some hn
      refine ⟨_, fillIndices_fan t vertexStart vertexCount (by omega), ?_, ?_⟩
      · rw [length_storesFrom]; omega
      · rw [length_storesFrom, positions_storesFrom]
  | QUADS =>
      simp only at hpre
      simp only [getIndexCount, Option.bind_eq_bind, Option.bind_eq_some,
        Option.some.injEq] at hcount
      obtain ⟨m, hm', hn⟩ := hcount
      have a₁ := intResult_some hm'
      have e : Int.tdiv m 4 = 6 * ((vertexCount / 4 : Nat) : Int) := by
        rw [Int.tdiv_eq_ediv (by omega) (by omega)]
        omega
      refine ⟨_, fillIndices_quads t vertexStart vertexCount (by omega), ?_, ?_⟩
      · rw [length_storesFrom, ← hn, e]; push_cast; rfl
      · rw [length_storesFrom, positions_storesFrom]

/-- Witness of `fillIndices_writes_getIndexCount`: a 16-bit strip of 5 vertices, whose
index count is 9. -/
theorem fillIndices_writes_getIndexCount_witness :
    ∃ stores, fillIndices .uint16 .STRIP 0 5 = some stores ∧
      (stores.length : Int) = 9 ∧
      stores.map Prod.fst = (List.range stores.length).map fun (p : Nat) => (p : Int) :=
  fillIndices_writes_getIndexCount .uint16 .STRIP 0 5 9 (by decide) (by decide)

/-- Claim C1 as stated fails for the 32-bit overload: a strip of 715827885 vertices meets
the precondition `vertexCount >= 2`, but `3 * (vertexCount - 2) = 2147483649` overflows
`int`, so `getIndexCount` has no defined value that the number of stores could equal. -/
theorem fillIndices_writes_getIndexCount_counterexample :
    ¬ ((2 : Nat) ≤ 715827885 →
        ∃ (n : Int) (stores : List Store),
          getIndexCount .STRIP ((715827885 : Nat) : Int) = some n ∧
          fillIndices .uint32 .STRIP 0 715827885 = some stores ∧
          (stores.length : Int) = n ∧
          stores.map Prod.fst = (List.range stores.length).map fun (p : Nat) => (p : Int)) := by
  intro h
  obtain ⟨n, stores, hn, _⟩ := h (by decide)
  have : getIndexCount .STRIP ((715827885 : Nat) : Int) = none := by decide
  rw [this] at hn
  cases hn

/-- Claim C2 (amended): STRIP emission. For either overload, every `vertexStart` and every
`vertexCount >= 2` such that `vertexStart + vertexCount - 1` is representable in the index
width and the index count `3 * (vertexCount - 2)` does not exceed `INT_MAX` (the `int`
cursor does not overflow), the fill runs to completion and, for every `i` with
`0 <= i <= vertexCount - 3`, leaves at buffer positions `3i`, `3i+1`, `3i+2` the values
`vertexStart+i`, `vertexStart+i+1+(i&1)`, `vertexStart+i+2-(i&1)`. -/
theorem strip_emission (t : IndexT) (vertexStart vertexCount : Nat)
    (hcount : 2 ≤ vertexCount)
    (hrep : (vertexStart : Int) + vertexCount - 1 < t.modulus)
    (hint : 3 * ((vertexCount : Int) - 2) ≤ INT_MAX) :
    ∃ stores, fillIndices t .STRIP vertexStart vertexCount = some stores ∧
      ∀ i : Nat, i + 3 ≤ vertexCount →
        written stores (3 * i : Nat) = some (vertexStart + i) ∧
        written stores (3 * i + 1 : Nat) = some (vertexStart + i + 1 + (i &&& 1)) ∧
        written stores (3 * i + 2 : Nat) = some (vertexStart + i + 2 - (i &&& 1)) := by
  have hM : INT_MAX = 2147483647 := rfl
  have e : (t.arith ((vertexCount : Int) - 2) - 0).toNat = vertexCount - 2 := by
    cases t <;> simp only [IndexT.arith] <;> omega
  refine ⟨_, fillIndices_strip t vertexStart vertexCount (by rw [e]; omega), ?_⟩
  intro i hi
  rw [e]
  obtain ⟨v0, v1, v2⟩ := stripValue_exact t vertexStart i (by omega)
  rw [written_storesFrom, written_storesFrom, written_storesFrom,
    if_pos (by omega), if_pos (by omega), if_pos (by omega), v0, v1, v2]
  exact ⟨rfl, rfl, rfl⟩

/-- Witness of `strip_emission`: `vertexCount = 5`, `vertexStart = 0` gives
`[0,1,2, 1,3,2, 2,3,4]`. -/
theorem strip_emission_witness :
    fillIndices .uint16 .STRIP 0 5 =
      some [(0, 0), (1, 1), (2, 2), (3, 1), (4, 3), (5, 2), (6, 2), (7, 3), (8, 4)] ∧
    ∃ stores, fillIndices .uint16 .STRIP 0 5 = some stores ∧
      ∀ i : Nat, i + 3 ≤ 5 →
        written stores (3 * i : Nat) = some (0 + i) ∧
        written stores (3 * i + 1 : Nat) = some (0 + i + 1 + (i &&& 1)) ∧
        written stores (3 * i + 2 : Nat) = some (0 + i + 2 - (i &&& 1)) :=
  ⟨by decide, strip_emission .uint16 0 5 (by decide) (by decide) (by decide)⟩

/-- Claim C2 as stated fails for the 32-bit overload: with `vertexStart = 0` and
`vertexCount = 715827885` the last vertex index is representable in 32 bits, but the
run needs 2147483649 stores and the `int` cursor `i` overflows at `INT_MAX`, so the fill
has no defined result. -/
theorem strip_emission_counterexample :
    ¬ ((2 : Nat) ≤ 715827885 →
        ((0 : Nat) : Int) + (715827885 : Nat) - 1 < IndexT.uint32.modulus →
        ∃ stores, fillIndices .uint32 .STRIP 0 715827885 = some stores ∧
          ∀ i : Nat, i + 3 ≤ 715827885 →
            written stores (3 * i : Nat) = some (0 + i) ∧
            written stores (3 * i + 1 : Nat) = some (0 + i + 1 + (i &&& 1)) ∧
            written stores (3 * i + 2 : Nat) = some (0 + i + 2 - (i &&& 1))) := by
  intro h
  obtain ⟨stores, hs, _⟩ := h (by decide) (by decide)
  rw [fillIndices_strip_none .uint32 0 715827885 (by decide)] at hs
  cases hs

/-- Claim C3 (amended): FAN emission. For either overload, every `vertexStart` and every
`vertexCount >= 2` such that `vertexStart + vertexCount - 1` is representable in the index
width and the index count `3 * (vertexCount - 2)` does not exceed `INT_MAX`, the fill runs
to completion and, for every `i` with `2 <= i <= vertexCount - 1`, leaves at buffer
positions `3(i-2)`, `3(i-2)+1`, `3(i-2)+2` the values `vertexStart`, `vertexStart+i-1`,
`vertexStart+i`: the first vertex is the pivot of every triangle. -/
theorem fan_emission (t : IndexT) (vertexStart vertexCount : Nat)
    (hcount : 2 ≤ vertexCount)
    (hrep : (vertexStart : Int) + vertexCount - 1 < t.modulus)
    (hint : 3 * ((vertexCount : Int) - 2) ≤ INT_MAX) :
    ∃ stores, fillIndices t .FAN vertexStart vertexCount = some stores ∧
      ∀ i : Nat, 2 ≤ i → i + 1 ≤ vertexCount →
        written stores (3 * (i - 2) : Nat) = some vertexStart ∧
        written stores (3 * (i - 2) + 1 : Nat) = some (vertexStart + i - 1) ∧
        written stores (3 * (i - 2) + 2 : Nat) = some (vertexStart + i) := by
  refine ⟨_, fillIndices_fan t vertexStart vertexCount hint, ?_⟩
  intro i hi hiv
  obtain ⟨v0, v1, v2⟩ := fanValue_exact t vertexStart (i - 2) (by omega)
  have ei : i - 2 + 2 = i := by omega
  rw [ei] at v1 v2
  rw [written_storesFrom, written_storesFrom, written_storesFrom,
    if_pos (by omega), if_pos (by omega), if_pos (by omega), v0, v1, v2]
  exact ⟨rfl, rfl, rfl⟩

/-- Witness of `fan_emission`: `vertexCount = 5`, `vertexStart = 0` gives
`[0,1,2, 0,2,3, 0,3,4]`. -/
theorem fan_emission_witness :
    fillIndices .uint16 .FAN 0 5 =
      some [(0, 0), (1, 1), (2, 2), (3, 0), (4, 2), (5, 3), (6, 0), (7, 3), (8, 4)] ∧
    ∃ stores, fillIndices .uint16 .FAN 0 5 = some stores ∧
      ∀ i : Nat, 2 ≤ i → i + 1 ≤ 5 →
        written stores (3 * (i - 2) : Nat) = some 0 ∧
        written stores (3 * (i - 2) + 1 : Nat) = some (0 + i - 1) ∧
        written stores (3 * (i - 2) + 2 : Nat) = some (0 + i) :=
  ⟨by decide, fan_emission .uint16 0 5 (by decide) (by decide) (by decide)⟩

/-- Claim C3 as stated fails for the 32-bit overload: with `vertexStart = 0` and
`vertexCount = 715827885` the last vertex index is representable in 32 bits, but the
run needs 2147483649 stores and the `int` cursor `i` overflows at `INT_MAX`, so the fill
has no defined result. -/
theorem fan_emission_counterexample :
    ¬ ((2 : Nat) ≤ 715827885 →
        ((0 : Nat) : Int) + (715827885 : Nat) - 1 < IndexT.uint32.modulus →
        ∃ stores, fillIndices .uint32 .FAN 0 715827885 = some stores ∧
          ∀ i : Nat, 2 ≤ i → i + 1 ≤ 715827885 →
            written stores (3 * (i - 2) : Nat) = some 0 ∧
            written stores (3 * (i - 2) + 1 : Nat) = some (0 + i - 1) ∧
            written stores (3 * (i - 2) + 2 : Nat) = some (0 + i)) := by
  intro h
  obtain ⟨stores, hs, _⟩ := h (by decide) (by decide)
  rw [fillIndices_fan_none .uint32 0 715827885 (by decide)] at hs
  cases hs

/-- Claim C4 (amended): QUADS emission. For either overload, every `vertexStart` and every
`vertexCount` such that `vertexStart + vertexCount - 1` is representable in the index
width and the number of indices `6 * (vertexCount / 4)` does not exceed `INT_MAX`, the
fill runs to completion and, for every group `g` with `0 <= g <= vertexCount/4 - 1` and
`b = vertexStart + 4g`, leaves at buffer positions `6g .. 6g+5` the values
`b, b+1, b+2, b+2, b+1, b+3`. -/
theorem quads_emission (t : IndexT) (vertexStart vertexCount : Nat)
    (hrep : (vertexStart : Int) + vertexCount - 1 < t.modulus)
    (hint : 6 * ((vertexCount / 4 : Nat) : Int) ≤ INT_MAX) :
    ∃ stores, fillIndices t .QUADS vertexStart vertexCount = some stores ∧
      ∀ g : Nat, g + 1 ≤ vertexCount / 4 →
        written stores (6 * g : Nat) = some (vertexStart + 4 * g) ∧
        written stores (6 * g + 1 : Nat) = some (vertexStart + 4 * g + 1) ∧
        written stores (6 * g + 2 : Nat) = some (vertexStart + 4 * g + 2) ∧
        written stores (6 * g + 3 : Nat) = some (vertexStart + 4 * g + 2) ∧
        written stores (6 * g + 4 : Nat) = some (vertexStart + 4 * g + 1) ∧
        written stores (6 * g + 5 : Nat) = some (vertexStart + 4 * g + 3) := by
  refine ⟨_, fillIndices_quads t vertexStart vertexCount hint, ?_⟩
  intro g hg
  have hb : (vertexStart : Int) + 4 * g + 3 < t.modulus := by omega
  have q0 := quadsValue_exact t vertexStart g 0 (by omega) hb
  have q1 := quadsValue_exact t vertexStart g 1 (by omega) hb
  have q2 := quadsValue_exact t vertexStart g 2 (by omega) hb
  have q3 := quadsValue_exact t vertexStart g 3 (by omega) hb
  have q4 := quadsValue_exact t vertexStart g 4 (by omega) hb
  have q5 := quadsValue_exact t vertexStart g 5 (by omega) hb
  simp only [quadOffset] at q0 q1 q2 q3 q4 q5
  norm_num at q0 q1 q2 q3 q4 q5
  rw [written_storesFrom, written_storesFrom, written_storesFrom, written_storesFrom,
    written_storesFrom, written_storesFrom,
    if_pos (by omega), if_pos (by omega), if_pos (by omega), if_pos (by omega),
    if_pos (by omega), if_pos (by omega), q0, q1, q2, q3, q4, q5]
  exact ⟨rfl, rfl, rfl, rfl, rfl, rfl⟩

/-- Witness of `quads_emission`: `vertexCount = 4`, `vertexStart = 10` gives
`[10,11,12, 12,11,13]`. -/
theorem quads_emission_witness :
    fillIndices .uint16 .QUADS 10 4 =
      some [(0, 10), (1, 11), (2, 12), (3, 12), (4, 11), (5, 13)] ∧
    ∃ stores, fillIndices .uint16 .QUADS 10 4 = some stores ∧
      ∀ g : Nat, g + 1 ≤ 4 / 4 →
        written stores (6 * g : Nat) = some (10 + 4 * g) ∧
        written stores (6 * g + 1 : Nat) = some (10 + 4 * g + 1) ∧
        written stores (6 * g + 2 : Nat) = some (10 + 4 * g + 2) ∧
        written stores (6 * g + 3 : Nat) = some (10 + 4 * g + 2) ∧
        written stores (6 * g + 4 : Nat) = some (10 + 4 * g + 1) ∧
        written stores (6 * g + 5 : Nat) = some (10 + 4 * g + 3) :=
  ⟨by decide, quads_emission .uint16 10 4 (by decide) (by decide)⟩

/-- Claim C4 as stated fails for the 32-bit overload: with `vertexStart = 0` and
`vertexCount = 1431655768` the last vertex index is representable in 32 bits, but the
last quad (`i = 357913941`) computes the position `ii + 2 = 2147483648`, an `int`
overflow, so the fill has no defined result. -/
theorem quads_emission_counterexample :
    ¬ (((0 : Nat) : Int) + (1431655768 : Nat) - 1 < IndexT.uint32.modulus →
        ∃ stores, fillIndices .uint32 .QUADS 0 1431655768 = some stores ∧
          ∀ g : Nat, g + 1 ≤ 1431655768 / 4 →
            written stores (6 * g : Nat) = some (0 + 4 * g) ∧
            written stores (6 * g + 1 : Nat) = some (0 + 4 * g + 1) ∧
            written stores (6 * g + 2 : Nat) = some (0 + 4 * g + 2) ∧
            written stores (6 * g + 3 : Nat) = some (0 + 4 * g + 2) ∧
            written stores (6 * g + 4 : Nat) = some (0 + 4 * g + 1) ∧
            written stores (6 * g + 5 : Nat) = some (0 + 4 * g + 3)) := by
  intro h
  obtain ⟨stores, hs, _⟩ := h (by decide)
  rw [fillIndices_quads_none .uint32 0 1431655768 (by decide)] at hs
  cases hs

/-- Claim C5: `getIndexCount` follows the table of the specification whenever no `int`
operation overflows: NONE gives 0, STRIP and FAN give `3 * (vertexCount - 2)`, QUADS gives
`vertexCount * 6 / 4` with the division truncated toward zero, which is
`6 * (vertexCount / 4)` whenever `vertexCount` is a multiple of 4. -/
theorem getIndexCount_table (mode : TriangleIndexMode) (vertexCount : Int)
    (hno : match mode with
      | .NONE => True
      | .STRIP => INT_MIN ≤ 3 * (vertexCount - 2) ∧ 3 * (vertexCount - 2) ≤ INT_MAX
      | .FAN => INT_MIN ≤ 3 * (vertexCount - 2) ∧ 3 * (vertexCount - 2) ≤ INT_MAX
      | .QUADS => INT_MIN ≤ vertexCount * 6 ∧ vertexCount * 6 ≤ INT_MAX) :
    getIndexCount mode vertexCount =
      some (match mode with
        | .NONE => 0
        | .STRIP => 3 * (vertexCount - 2)
        | .FAN => 3 * (vertexCount - 2)
        | .QUADS => Int.tdiv (vertexCount * 6) 4) ∧
    (mode = .QUADS → 4 ∣ vertexCount →
      Int.tdiv (vertexCount * 6) 4 = 6 * Int.tdiv vertexCount 4) := by
  have hM : INT_MAX = 2147483647 := rfl
  have hm : INT_MIN = -2147483648 := rfl
  refine ⟨?_, ?_⟩
  · cases mode with
    | NONE => rfl
    | STRIP =>
        simp only at hno
        simp only [getIndexCount, Option.bind_eq_bind]
        rw [intResult_of_range (x := vertexCount - 2) (by omega) (by omega)]
        simp only [Option.some_bind]
        rw [intResult_of_range hno.1 hno.2]
    | FAN =>
        simp only at hno
        simp only [getIndexCount, Option.bind_eq_bind]
        rw [intResult_of_range (x := vertexCount - 2) (by omega) (by omega)]
        simp only [Option.some_bind]
        rw [intResult_of_range hno.1 hno.2]
    | QUADS =>
        simp only at hno
        simp only [getIndexCount, Option.bind_eq_bind]
        rw [intResult_of_range hno.1 hno.2]
        simp only [Option.some_bind]
  · rintro - ⟨m, rfl⟩
    have e : 4 * m * 6 = 6 * m * 4 := by ring
    rw [e, Int.mul_tdiv_cancel _ (by decide), Int.mul_tdiv_cancel_left _ (by decide)]

/-- Witness of `getIndexCount_table`: (STRIP, 5) = 9, (FAN, 5) = 9, (QUADS, 4) = 6. -/
theorem getIndexCount_table_witness :
    getIndexCount .STRIP 5 = some 9 ∧ getIndexCount .FAN 5 = some 9 ∧
      getIndexCount .QUADS 4 = some 6 :=
  ⟨(getIndexCount_table .STRIP 5 (by decide)).1, (getIndexCount_table .FAN 5 (by decide)).1,
    (getIndexCount_table .QUADS 4 (by decide)).1⟩

/-- The `vertexStart` offset property on the runs whose behaviour the code defines. For
the 16-bit overload, every mode, `vertexCount`, `vertexStart` and `k` such that
`vertexStart + k + vertexCount - 1` is representable; for the 32-bit overload, the same
for a STRIP of at least 2 vertices and an index count that the `int` cursor can hold: the
fills from `vertexStart` and from `vertexStart + k` both run to completion, make the same
number of stores at the same positions, and every stored value of the shifted run is
exactly `k` greater than the value at the same place of the unshifted run. -/
theorem vertexStart_offset (t : IndexT) (mode : TriangleIndexMode)
    (vertexStart vertexCount k : Nat)
    (hrep : (vertexStart : Int) + k + vertexCount - 1 < t.modulus)
    (hint : t = .uint32 →
      (mode = .STRIP → 2 ≤ vertexCount) ∧ (emissionCount mode vertexCount : Int) ≤ INT_MAX) :
    ∃ base shifted,
      fillIndices t mode vertexStart vertexCount = some base ∧
      fillIndices t mode (vertexStart + k) vertexCount = some shifted ∧
      shifted.length = base.length ∧
      shifted = base.map fun st => (st.1, st.2 + k) := by
  have hM : INT_MAX = 2147483647 := rfl
  have hvc : (vertexCount : Int) ≤ t.modulus := by omega
  have hplain := storeCount_eq_emissionCount t mode vertexCount hvc (fun ht => (hint ht).1)
  have hmax : (storeCount t mode vertexCount : Int) ≤ INT_MAX := by
    cases t with
    | uint16 =>
        have := emissionCount_le mode vertexCount
        simp only [IndexT.modulus] at hvc
        rw [hplain]
        omega
    | uint32 => rw [hplain]; exact (hint rfl).2
  refine ⟨_, _, fillIndices_eq t mode vertexStart vertexCount hmax,
    fillIndices_eq t mode (vertexStart + k) vertexCount hmax, ?_, ?_⟩
  · rw [length_storesFrom, length_storesFrom]
  · refine storesFrom_congr _ _ (fun v => v + k) 0 _ ?_
    intro p _ hp
    rw [hplain, Nat.zero_add] at hp
    rw [modeValue_local t mode (vertexStart + k) vertexCount p (by push_cast; omega) hp,
      modeValue_local t mode vertexStart vertexCount p (by omega) hp]
    show vertexStart + k + emissionLocalIndex mode p =
      vertexStart + emissionLocalIndex mode p + k
    omega

/-- The offset property at a 32-bit quad list of 8 vertices moved from 10 to 17. -/
theorem vertexStart_offset_witness :
    ∃ base shifted,
      fillIndices .uint32 .QUADS 10 8 = some base ∧
      fillIndices .uint32 .QUADS (10 + 7) 8 = some shifted ∧
      shifted.length = base.length ∧
      shifted = base.map fun st => (st.1, st.2 + 7) :=
  vertexStart_offset .uint32 .QUADS 10 8 7 (by decide) (fun _ => ⟨by decide, by decide⟩)

/-- Claim C6 (code defect, 32-bit STRIP with fewer than 2 vertices): the run
`vertexStart = 0`, `vertexCount = 0`, shifted by `k = 1`, meets the hypothesis of the
offset property (`vertexStart + k + vertexCount - 1 = 0` is representable), but in the
32-bit instantiation the unsigned loop bound `vertexCount - 2` wraps to `2^32 - 2`: the
STRIP loop is set for 4294967294 iterations and the `int` cursor overflows, so neither the
unshifted nor the shifted fill has a defined result. On the same run the 16-bit
instantiation and the FAN loop make no store, as an empty run requires. -/
theorem vertexStart_offset_undersized_strip :
    ((0 : Nat) : Int) + (1 : Nat) + (0 : Nat) - 1 < IndexT.uint32.modulus ∧
    loopIterations .uint32 .STRIP 0 = 4294967294 ∧
    fillIndices .uint32 .STRIP 0 0 = none ∧
    fillIndices .uint32 .STRIP (0 + 1) 0 = none ∧
    fillIndices .uint16 .STRIP 0 0 = some [] ∧
    fillIndices .uint16 .STRIP (0 + 1) 0 = some [] ∧
    fillIndices .uint32 .FAN 0 0 = some [] ∧
    fillIndices .uint32 .FAN (0 + 1) 0 = some [] :=
  ⟨by decide, by decide, fillIndices_strip_none .uint32 0 0 (by decide),
    fillIndices_strip_none .uint32 (0 + 1) 0 (by decide), by decide, by decide, by decide,
    by decide⟩

/-- Claim C7: for every unsigned `maxvalue`, `getIndexDataTypeFromMax` returns
`INDEX_UINT16` exactly when `maxvalue <= 65535` and `INDEX_UINT32` otherwise; so it returns
`INDEX_UINT16` at 65535 and `INDEX_UINT32` at 65536. -/
theorem getIndexDataTypeFromMax_threshold (maxvalue : Nat) :
    (getIndexDataTypeFromMax maxvalue = .INDEX_UINT16 ↔ maxvalue ≤ 65535) ∧
    (getIndexDataTypeFromMax maxvalue = .INDEX_UINT32 ↔ ¬ maxvalue ≤ 65535) ∧
    getIndexDataTypeFromMax 65535 = .INDEX_UINT16 ∧
    getIndexDataTypeFromMax 65536 = .INDEX_UINT32 := by
  refine ⟨?_, ?_, by decide, by decide⟩
  · by_cases h : maxvalue > LOVE_UINT16_MAX
    · have h' : ¬ maxvalue ≤ 65535 := by unfold LOVE_UINT16_MAX at h; omega
      simp [getIndexDataTypeFromMax, h, h']
    · have h' : maxvalue ≤ 65535 := by unfold LOVE_UINT16_MAX at h; omega
      simp [getIndexDataTypeFromMax, h, h']
  · by_cases h : maxvalue > LOVE_UINT16_MAX
    · have h' : ¬ maxvalue ≤ 65535 := by unfold LOVE_UINT16_MAX at h; omega
      simp [getIndexDataTypeFromMax, h, h']
    · have h' : maxvalue ≤ 65535 := by unfold LOVE_UINT16_MAX at h; omega
      simp [getIndexDataTypeFromMax, h, h']

/-- Claim C8 (amended): for every `maxVertexIndex` up to `2^32 - 1`,
`getIndexDataTypeFromMax` returns the narrowest index type whose maximum is at least
`maxVertexIndex`: with `w` the byte size of the returned type, `maxVertexIndex <= 2^(8w) - 1`,
and neither index type (`INDEX_UINT16`, `INDEX_UINT32`) of smaller byte size has a maximum
that reaches `maxVertexIndex`. -/
theorem getIndexDataTypeFromMax_narrowest (maxVertexIndex : Nat)
    (h : maxVertexIndex ≤ 4294967295) :
    maxVertexIndex ≤ 2 ^ (8 * getIndexDataSize (getIndexDataTypeFromMax maxVertexIndex)) - 1 ∧
    ∀ ty : IndexDataType, ty = .INDEX_UINT16 ∨ ty = .INDEX_UINT32 →
      getIndexDataSize ty < getIndexDataSize (getIndexDataTypeFromMax maxVertexIndex) →
      ¬ maxVertexIndex ≤ 2 ^ (8 * getIndexDataSize ty) - 1 := by
  by_cases hc : maxVertexIndex > LOVE_UINT16_MAX
  · have e : getIndexDataTypeFromMax maxVertexIndex = .INDEX_UINT32 := by
      simp [getIndexDataTypeFromMax, hc]
    rw [e]
    refine ⟨by simpa [getIndexDataSize] using h, ?_⟩
    rintro ty (rfl | rfl) hlt
    · unfold LOVE_UINT16_MAX at hc
      simp only [getIndexDataSize]
      omega
    · simp [getIndexDataSize] at hlt
  · have e : getIndexDataTypeFromMax maxVertexIndex = .INDEX_UINT16 := by
      simp [getIndexDataTypeFromMax, hc]
    rw [e]
    refine ⟨?_, ?_⟩
    · unfold LOVE_UINT16_MAX at hc
      simp only [getIndexDataSize]
      omega
    · rintro ty (rfl | rfl) hlt <;> simp [getIndexDataSize] at hlt

/-- Witness of `getIndexDataTypeFromMax_narrowest` at the boundary value 65536. -/
theorem getIndexDataTypeFromMax_narrowest_witness :
    (65536 : Nat) ≤ 2 ^ (8 * getIndexDataSize (getIndexDataTypeFromMax 65536)) - 1 ∧
    ∀ ty : IndexDataType, ty = .INDEX_UINT16 ∨ ty = .INDEX_UINT32 →
      getIndexDataSize ty < getIndexDataSize (getIndexDataTypeFromMax 65536) →
      ¬ (65536 : Nat) ≤ 2 ^ (8 * getIndexDataSize ty) - 1 :=
  getIndexDataTypeFromMax_narrowest 65536 (by decide)

/-- Claim C8 as stated fails on the full range of a 64-bit `size_t`: for
`maxVertexIndex = 2^32` the function returns `INDEX_UINT32`, of byte size 4, whose maximum
`2^32 - 1` is below `maxVertexIndex`. -/
theorem getIndexDataTypeFromMax_narrowest_counterexample :
    (4294967296 : Nat) ≤ SIZE_MAX ∧
    getIndexDataTypeFromMax 4294967296 = .INDEX_UINT32 ∧
    ¬ ((4294967296 : Nat) ≤
        2 ^ (8 * getIndexDataSize (getIndexDataTypeFromMax 4294967296)) - 1) := by
  refine ⟨by decide, by decide, ?_⟩
  have e : getIndexDataTypeFromMax 4294967296 = .INDEX_UINT32 := by decide
  rw [e]
  simp [getIndexDataSize]

/-- Claim C9: when `getIndexDataTypeFromMax(vertexStart + vertexCount - 1)` returns
`INDEX_UINT16`, the 16-bit fill does not truncate: for every mode, `vertexStart` and
`vertexCount >= 2`, the fill runs to completion and every store it makes, at a position
`p`, holds exactly `vertexStart` plus the local vertex index that the emission rule of the
mode prescribes for `p`, as a natural number (no reduction modulo 65536), which is at
most 65535. -/
theorem fillIndices_uint16_exact (mode : TriangleIndexMode) (vertexStart vertexCount : Nat)
    (_hcount : 2 ≤ vertexCount)
    (hty : getIndexDataTypeFromMax (vertexStart + vertexCount - 1) = .INDEX_UINT16) :
    ∃ stores, fillIndices .uint16 mode vertexStart vertexCount = some stores ∧
      ∀ st ∈ stores, ∃ p : Nat, st.1 = (p : Int) ∧
        st.2 = vertexStart + emissionLocalIndex mode p ∧
        vertexStart + emissionLocalIndex mode p ≤ 65535 := by
  have hM : INT_MAX = 2147483647 := rfl
  have hle : vertexStart + vertexCount - 1 ≤ 65535 := by
    by_contra hc
    have hgt : vertexStart + vertexCount - 1 > LOVE_UINT16_MAX := by
      unfold LOVE_UINT16_MAX; omega
    simp [getIndexDataTypeFromMax, hgt] at hty
  have hrep : (vertexStart : Int) + vertexCount - 1 < IndexT.uint16.modulus := by
    simp only [IndexT.modulus]; omega
  have hvc : (vertexCount : Int) ≤ IndexT.uint16.modulus := by
    simp only [IndexT.modulus]; omega
  have hplain := storeCount_eq_emissionCount .uint16 mode vertexCount hvc (fun ht => by cases ht)
  have hmax : (storeCount .uint16 mode vertexCount : Int) ≤ INT_MAX := by
    have := emissionCount_le mode vertexCount
    rw [hplain]
    omega
  refine ⟨_, fillIndices_eq .uint16 mode vertexStart vertexCount hmax, ?_⟩
  intro st hst
  obtain ⟨p, hp, rfl⟩ := mem_storesFrom hst
  rw [hplain] at hp
  have hv := modeValue_local .uint16 mode vertexStart vertexCount p hrep hp
  refine ⟨p, rfl, hv, ?_⟩
  rw [← hv]
  have : modeValue .uint16 mode vertexStart p < 65536 := by
    cases mode <;>
      simp only [modeValue, stripValue, fanValue, quadsValue, IndexT.conv, IndexT.modulus] <;>
      (try split_ifs) <;> omega
  omega

/-- Witness of `fillIndices_uint16_exact`: the last strip the 16-bit type can index,
`vertexStart = 65531`, `vertexCount = 5`. -/
theorem fillIndices_uint16_exact_witness :
    fillIndices .uint16 .STRIP 65531 5 =
      some [(0, 65531), (1, 65532), (2, 65533), (3, 65532), (4, 65534), (5, 65533),
        (6, 65533), (7, 65534), (8, 65535)] ∧
    ∃ stores, fillIndices .uint16 .STRIP 65531 5 = some stores ∧
      ∀ st ∈ stores, ∃ p : Nat, st.1 = (p : Int) ∧
        st.2 = 65531 + emissionLocalIndex .STRIP p ∧
        65531 + emissionLocalIndex .STRIP p ≤ 65535 :=
  ⟨by decide, fillIndices_uint16_exact .STRIP 65531 5 (by decide) (by decide)⟩

/-- Claim C10: the 16-bit and the 32-bit overload compute the same result. For every mode
and every `vertexStart`, `vertexCount` representable in 16 bits that meet the mode's
minimum run size (`vertexCount >= 2` for STRIP and FAN) and satisfy
`vertexStart + vertexCount - 1 <= 65535`, both overloads run to completion and make the
same stores: the same number of them, at the same positions, with the same values. -/
theorem fillIndices_overloads_agree (mode : TriangleIndexMode) (vertexStart vertexCount : Nat)
    (_hvs : vertexStart ≤ 65535) (hvc : vertexCount ≤ 65535)
    (hmin : mode = .STRIP ∨ mode = .FAN → 2 ≤ vertexCount)
    (hrep : (vertexStart : Int) + vertexCount - 1 ≤ 65535) :
    ∃ stores, fillIndices .uint16 mode vertexStart vertexCount = some stores ∧
      fillIndices .uint32 mode vertexStart vertexCount = some stores := by
  have hM : INT_MAX = 2147483647 := rfl
  have p16 := storeCount_eq_emissionCount .uint16 mode vertexCount
    (by simp only [IndexT.modulus]; omega) (fun ht => by cases ht)
  have p32 := storeCount_eq_emissionCount .uint32 mode vertexCount
    (by simp only [IndexT.modulus]; omega) (fun _ hm => hmin (Or.inl hm))
  have hle := emissionCount_le mode vertexCount
  have m16 : (storeCount .uint16 mode vertexCount : Int) ≤ INT_MAX := by
    rw [p16]; omega
  have m32 : (storeCount .uint32 mode vertexCount : Int) ≤ INT_MAX := by
    rw [p32]; omega
  refine ⟨_, fillIndices_eq .uint16 mode vertexStart vertexCount m16, ?_⟩
  rw [fillIndices_eq .uint32 mode vertexStart vertexCount m32, p32, ← p16]
  congr 1
  have := storesFrom_congr (modeValue .uint16 mode vertexStart)
    (modeValue .uint32 mode vertexStart) id 0 (storeCount .uint16 mode vertexCount)
    (by
      intro p _ hp
      rw [p16, Nat.zero_add] at hp
      rw [modeValue_local .uint32 mode vertexStart vertexCount p
          (by simp only [IndexT.modulus]; omega) hp,
        modeValue_local .uint16 mode vertexStart vertexCount p
          (by simp only [IndexT.modulus]; omega) hp]
      rfl)
  rw [this]
  simp

/-- Witness of `fillIndices_overloads_agree`: a fan of 5 vertices from vertex 100. -/
theorem fillIndices_overloads_agree_witness :
    ∃ stores, fillIndices .uint16 .FAN 100 5 = some stores ∧
      fillIndices .uint32 .FAN 100 5 = some stores :=
  fillIndices_overloads_agree .FAN 100 5 (by decide) (by decide) (fun _ => by decide)
    (by decide)

/-- Bounded work on the runs whose behaviour the code defines. Every `fillIndices` call
of the 16-bit overload, for every mode, `vertexStart` and `vertexCount` of the index width
(0 and 1 included), and every call of the 32-bit overload on a STRIP of at least 2
vertices or on another mode, with an index count that the `int` cursor can hold, runs to
completion after at most `vertexCount` loop iterations and writes at most
`3 * vertexCount` index values (three per iteration for STRIP and FAN, six per iteration
for QUADS). -/
theorem fillIndices_bounded (t : IndexT) (mode : TriangleIndexMode)
    (vertexStart vertexCount : Nat)
    (hvc : (vertexCount : Int) < t.modulus)
    (h32 : t = .uint32 →
      (mode = .STRIP → 2 ≤ vertexCount) ∧ (emissionCount mode vertexCount : Int) ≤ INT_MAX) :
    ∃ stores, fillIndices t mode vertexStart vertexCount = some stores ∧
      loopIterations t mode vertexCount ≤ vertexCount ∧
      stores.length ≤ 3 * vertexCount ∧
      stores.length = (if mode = .QUADS then 6 else 3) * loopIterations t mode vertexCount := by
  have hM : INT_MAX = 2147483647 := rfl
  have hplain := storeCount_eq_emissionCount t mode vertexCount (by omega)
    (fun ht => (h32 ht).1)
  have hle := emissionCount_le mode vertexCount
  have hmax : (storeCount t mode vertexCount : Int) ≤ INT_MAX := by
    cases t with
    | uint16 =>
        simp only [IndexT.modulus] at hvc
        rw [hplain]
        omega
    | uint32 => rw [hplain]; exact (h32 rfl).2
  have hit := storeCount_eq_loopIterations t mode vertexCount
  refine ⟨_, fillIndices_eq t mode vertexStart vertexCount hmax, ?_, ?_, ?_⟩
  · rw [hplain] at hit
    cases mode <;> simp [emissionCount] at hit <;> omega
  · rw [length_storesFrom, hplain]; exact hle
  · rw [length_storesFrom, hit]

/-- An undersized 16-bit strip of one vertex makes no iteration and no store. -/
theorem fillIndices_bounded_witness :
    fillIndices .uint16 .STRIP 0 1 = some [] ∧
    ∃ stores, fillIndices .uint16 .STRIP 0 1 = some stores ∧
      loopIterations .uint16 .STRIP 1 ≤ 1 ∧
      stores.length ≤ 3 * 1 ∧
      stores.length = (if TriangleIndexMode.STRIP = .QUADS then 6 else 3) *
        loopIterations .uint16 .STRIP 1 :=
  ⟨by decide, fillIndices_bounded .uint16 .STRIP 0 1 (by decide) (fun h => by cases h)⟩

/-- Claim C11 (code defect, 32-bit STRIP with fewer than 2 vertices): on the undersized
run `vertexCount = 1` the 32-bit instantiation computes the loop bound `vertexCount - 2` in
unsigned arithmetic, where it wraps to `2^32 - 1`: the STRIP loop is set for 4294967295
iterations instead of at most `vertexCount = 1`, and the `int` cursor overflows before the
loop ends, so the fill has no defined result. On the same run the 16-bit instantiation
and the FAN loop make no iteration and no store. -/
theorem fillIndices_undersized_strip_unbounded :
    ((1 : Nat) : Int) < IndexT.uint32.modulus ∧
    loopIterations .uint32 .STRIP 1 = 4294967295 ∧
    ¬ loopIterations .uint32 .STRIP 1 ≤ 1 ∧
    fillIndices .uint32 .STRIP 0 1 = none ∧
    loopIterations .uint16 .STRIP 1 = 0 ∧
    fillIndices .uint16 .STRIP 0 1 = some [] ∧
    loopIterations .uint32 .FAN 1 = 0 ∧
    fillIndices .uint32 .FAN 0 1 = some [] :=
  ⟨by decide, by decide, by decide, fillIndices_strip_none .uint32 0 1 (by decide),
    by decide, by decide, by decide, by decide⟩

/-- Claim C12: `getFormatStride` returns, for every `CommonFormat`, the sum of its
component field sizes with no padding: NONE = 0, XYf = 8, RGBAub = 4, XYf_STf = 16,
XYf_STf_RGBAub = 20, XYf_STus_RGBAub = 16; hence the stride is greater than 0 for every
format other than NONE. -/
theorem getFormatStride_table (format : CommonFormat) :
    getFormatStride format = positionBytes format + texcoordBytes format + colorBytes format ∧
    getFormatStride .NONE = 0 ∧ getFormatStride .XYf = 8 ∧ getFormatStride .RGBAub = 4 ∧
    getFormatStride .XYf_STf = 8 + 8 ∧ getFormatStride .XYf_STf_RGBAub = 8 + 8 + 4 ∧
    getFormatStride .XYf_STus_RGBAub = 8 + 4 + 4 ∧
    (format = .NONE ∨ 0 < getFormatStride format) := by
  cases format <;> decide

/-- Claim C13: for attribute flags that are distinct single bits of a 32-bit mask,
`getFormatFlags` returns, for every `CommonFormat`, exactly the union of the attribute
bits of the channels the format carries: NONE = 0, XYf = POS, RGBAub = COLOR,
XYf_STf = POS|TEXCOORD, XYf_STf_RGBAub = XYf_STus_RGBAub = POS|TEXCOORD|COLOR; the result is
zero only for NONE, and a bit is set if and only if `getFormatStride` counts bytes of that
channel. -/
theorem getFormatFlags_table (b : AttribBits) (format : CommonFormat)
    (hp : b.pos < 32) (ht : b.texcoord < 32) (hc : b.color < 32)
    (hpt : b.pos ≠ b.texcoord) (hpc : b.pos ≠ b.color) (htc : b.texcoord ≠ b.color) :
    (getFormatFlags b .NONE = 0 ∧
      getFormatFlags b .XYf = ATTRIBFLAG_POS b ∧
      getFormatFlags b .RGBAub = ATTRIBFLAG_COLOR b ∧
      getFormatFlags b .XYf_STf = ATTRIBFLAG_POS b ||| ATTRIBFLAG_TEXCOORD b ∧
      getFormatFlags b .XYf_STf_RGBAub =
        ATTRIBFLAG_POS b ||| ATTRIBFLAG_TEXCOORD b ||| ATTRIBFLAG_COLOR b ∧
      getFormatFlags b .XYf_STus_RGBAub =
        ATTRIBFLAG_POS b ||| ATTRIBFLAG_TEXCOORD b ||| ATTRIBFLAG_COLOR b) ∧
    (getFormatFlags b format = 0 ↔ format = .NONE) ∧
    ((getFormatFlags b format).testBit b.pos = true ↔ 0 < positionBytes format) ∧
    ((getFormatFlags b format).testBit b.texcoord = true ↔ 0 < texcoordBytes format) ∧
    ((getFormatFlags b format).testBit b.color = true ↔ 0 < colorBytes format) ∧
    getFormatStride format = positionBytes format + texcoordBytes format + colorBytes format := by
  have heq := getFormatFlags_eq b hp ht hc
  have tb := testBit_attribFlags b
  have hbits :
      ((getFormatFlags b format).testBit b.pos = true ↔ 0 < positionBytes format) ∧
      ((getFormatFlags b format).testBit b.texcoord = true ↔ 0 < texcoordBytes format) ∧
      ((getFormatFlags b format).testBit b.color = true ↔ 0 < colorBytes format) := by
    rw [heq format]
    cases format <;>
      simp [positionBytes, texcoordBytes, colorBytes, Nat.testBit_or, tb, hpt, hpc, htc,
        hpt.symm, hpc.symm, htc.symm]
  refine ⟨⟨heq _, heq _, heq _, heq _, heq _, heq _⟩, ?_, hbits.1, hbits.2.1, hbits.2.2, ?_⟩
  · constructor
    · intro h0
      rw [h0] at hbits
      simp only [Nat.zero_testBit, Bool.false_eq_true, false_iff, not_lt,
        Nat.le_zero_eq] at hbits
      cases format <;> simp_all [positionBytes, colorBytes]
    · rintro rfl
      exact heq _
  · cases format <;> rfl

/-- Witness of `getFormatFlags_table`: POS, TEXCOORD and COLOR as the bits 0, 1 and 2; the
16-bit texture coordinate format with colour has the flags `1 | 2 | 4 = 7`. -/
theorem getFormatFlags_table_witness :
    getFormatFlags { pos := 0, texcoord := 1, color := 2 } .XYf_STus_RGBAub = 7 ∧
    (getFormatFlags { pos := 0, texcoord := 1, color := 2 } .XYf_STus_RGBAub = 0 ↔
      CommonFormat.XYf_STus_RGBAub = .NONE) :=
  ⟨by decide,
    (getFormatFlags_table { pos := 0, texcoord := 1, color := 2 } .XYf_STus_RGBAub
      (by decide) (by decide) (by decide) (by decide) (by decide) (by decide)).2.1⟩

/-- Claim C14: `getIndexDataSize` returns 2 for `INDEX_UINT16`, 4 for `INDEX_UINT32` and 0
for every other `IndexDataType` value, the `INDEX_MAX_ENUM` sentinel included; it is a
total function that raises no error. -/
theorem getIndexDataSize_table (type : IndexDataType) :
    getIndexDataSize .INDEX_UINT16 = 2 ∧ getIndexDataSize .INDEX_UINT32 = 4 ∧
    getIndexDataSize .INDEX_MAX_ENUM = 0 ∧
    getIndexDataSize type =
      (if type = .INDEX_UINT16 then 2 else if type = .INDEX_UINT32 then 4 else 0) := by
  cases type <;> decide

/-- Claim C15: registry round trip. For each of the three tables (attribute names, index
type names, usage names) and every populated entry (name, value), `getConstant(name)`
succeeds with `value` and `getConstant(value)` succeeds with `name`, so both round trips
return the original; each table has no duplicate names and no duplicate enum values. -/
theorem getConstant_round_trip :
    (∀ e ∈ attribNameEntries,
      getConstantVertexAttribID e.1 = some e.2 ∧ getConstantVertexAttribIDName e.2 = some e.1) ∧
    (∀ e ∈ indexTypeEntries,
      getConstantIndexDataType e.1 = some e.2 ∧ getConstantIndexDataTypeName e.2 = some e.1) ∧
    (∀ e ∈ usageEntries,
      getConstantUsage e.1 = some e.2 ∧ getConstantUsageName e.2 = some e.1) ∧
    (attribNameEntries.map Prod.fst).Nodup ∧ (attribNameEntries.map Prod.snd).Nodup ∧
    (indexTypeEntries.map Prod.fst).Nodup ∧ (indexTypeEntries.map Prod.snd).Nodup ∧
    (usageEntries.map Prod.fst).Nodup ∧ (usageEntries.map Prod.snd).Nodup := by
  refine ⟨?_, ?_, ?_, by decide, by decide, by decide, by decide, by decide, by decide⟩
  · intro e he
    exact ⟨(find_eq_some_iff attribNameEntries (by decide) e.1 e.2).mpr he,
      (findKey_eq_some_iff attribNameEntries (by decide) e.2 e.1).mpr he⟩
  · intro e he
    exact ⟨(find_eq_some_iff indexTypeEntries (by decide) e.1 e.2).mpr he,
      (findKey_eq_some_iff indexTypeEntries (by decide) e.2 e.1).mpr he⟩
  · intro e he
    exact ⟨(find_eq_some_iff usageEntries (by decide) e.1 e.2).mpr he,
      (findKey_eq_some_iff usageEntries (by decide) e.2 e.1).mpr he⟩

/-- Witness of `getConstant_round_trip`: the entry `("VertexColor", ATTRIB_COLOR)`. -/
theorem getConstant_round_trip_witness :
    getConstantVertexAttribID "VertexColor" = some .ATTRIB_COLOR ∧
    getConstantVertexAttribIDName .ATTRIB_COLOR = some "VertexColor" :=
  getConstant_round_trip.1 ("VertexColor", .ATTRIB_COLOR) (by decide)

/-- Claim C16: registry lookup miss. For each of the three tables, a lookup by name
succeeds with a value if and only if (name, value) is a populated entry, and a lookup by
enum value succeeds with a name if and only if (name, value) is a populated entry; so a
string that is not character for character one of the names (`"Uint16"`, `"STATIC"`, the
empty string) and an enum value without entry (the `MAX_ENUM` sentinels) give a failure,
with no default substituted. -/
theorem getConstant_miss (name : String) :
    (∀ v, getConstantVertexAttribID name = some v ↔ (name, v) ∈ attribNameEntries) ∧
    (∀ v, getConstantVertexAttribIDName v = some name ↔ (name, v) ∈ attribNameEntries) ∧
    (∀ v, getConstantIndexDataType name = some v ↔ (name, v) ∈ indexTypeEntries) ∧
    (∀ v, getConstantIndexDataTypeName v = some name ↔ (name, v) ∈ indexTypeEntries) ∧
    (∀ v, getConstantUsage name = some v ↔ (name, v) ∈ usageEntries) ∧
    (∀ v, getConstantUsageName v = some name ↔ (name, v) ∈ usageEntries) ∧
    (name ∉ attribNameEntries.map Prod.fst → getConstantVertexAttribID name = none) ∧
    (name ∉ indexTypeEntries.map Prod.fst → getConstantIndexDataType name = none) ∧
    (name ∉ usageEntries.map Prod.fst → getConstantUsage name = none) ∧
    getConstantIndexDataType "Uint16" = none ∧ getConstantUsage "STATIC" = none ∧
    getConstantVertexAttribID "" = none ∧ getConstantIndexDataType "" = none ∧
    getConstantUsage "" = none ∧
    getConstantVertexAttribIDName .ATTRIB_MAX_ENUM = none ∧
    getConstantIndexDataTypeName .INDEX_MAX_ENUM = none ∧
    getConstantUsageName .USAGE_MAX_ENUM = none := by
  have miss : ∀ {T : Type} (l : List (String × T)), (l.map Prod.fst).Nodup →
      name ∉ l.map Prod.fst → StringMap.find { entries := l } name = none := by
    intro T l hnd hn
    cases hf : StringMap.find { entries := l } name with
    | none => rfl
    | some v =>
        exact absurd (List.mem_map.mpr ⟨_, (find_eq_some_iff l hnd name v).mp hf, rfl⟩) hn
  refine ⟨fun v => find_eq_some_iff attribNameEntries (by decide) name v,
    fun v => findKey_eq_some_iff attribNameEntries (by decide) v name,
    fun v => find_eq_some_iff indexTypeEntries (by decide) name v,
    fun v => findKey_eq_some_iff indexTypeEntries (by decide) v name,
    fun v => find_eq_some_iff usageEntries (by decide) name v,
    fun v => findKey_eq_some_iff usageEntries (by decide) v name,
    miss attribNameEntries (by decide), miss indexTypeEntries (by decide),
    miss usageEntries (by decide),
    by decide, by decide, by decide, by decide, by decide, by decide, by decide, by decide⟩

/-- Witness of `getConstant_miss`: the name `"Static"` differs from `"static"` in case and
is not found in the usage table. -/
theorem getConstant_miss_witness : getConstantUsage "Static" = none :=
  (getConstant_miss "Static").2.2.2.2.2.2.2.2.1 (by decide)

/-- Claim C17: generated indices never leave the run. For either overload, every mode,
every `vertexStart` and every `vertexCount` meeting the mode's minimum (`vertexCount >= 2`
for STRIP and FAN) with `vertexStart + vertexCount - 1` representable in the index width,
every value `v` written by `fillIndices` satisfies
`vertexStart <= v <= vertexStart + vertexCount - 1`, for QUADS also when `vertexCount` is
not a multiple of 4. The fill runs to completion whenever its index count does not exceed
`INT_MAX`. -/
theorem fillIndices_values_in_run (t : IndexT) (mode : TriangleIndexMode)
    (vertexStart vertexCount : Nat)
    (hmin : mode = .STRIP ∨ mode = .FAN → 2 ≤ vertexCount)
    (hrep : (vertexStart : Int) + vertexCount - 1 < t.modulus) :
    ((emissionCount mode vertexCount : Int) ≤ INT_MAX →
      ∃ stores, fillIndices t mode vertexStart vertexCount = some stores) ∧
    ∀ stores, fillIndices t mode vertexStart vertexCount = some stores →
      ∀ st ∈ stores, vertexStart ≤ st.2 ∧ st.2 ≤ vertexStart + vertexCount - 1 := by
  refine ⟨?_, ?_⟩
  · intro hmax
    have hplain := storeCount_eq_emissionCount t mode vertexCount (by omega)
      (fun _ hm => hmin (Or.inl hm))
    exact ⟨_, fillIndices_eq t mode vertexStart vertexCount (by rw [hplain]; exact hmax)⟩
  · intro stores hs st hst
    obtain ⟨_, rfl⟩ := fillIndices_some_local t mode vertexStart vertexCount stores hrep hs
    obtain ⟨p, hp, rfl⟩ := mem_storesFrom hst
    have := emissionLocalIndex_lt mode vertexCount p hp
    simp only
    omega

/-- Witness of `fillIndices_values_in_run`: a quad list of 6 vertices from vertex 10 (not a
multiple of 4) only touches the vertices 10 .. 13. -/
theorem fillIndices_values_in_run_witness :
    fillIndices .uint32 .QUADS 10 6 =
      some [(0, 10), (1, 11), (2, 12), (3, 12), (4, 11), (5, 13)] ∧
    ∀ stores, fillIndices .uint32 .QUADS 10 6 = some stores →
      ∀ st ∈ stores, 10 ≤ st.2 ∧ st.2 ≤ 10 + 6 - 1 :=
  ⟨by decide,
    (fillIndices_values_in_run .uint32 .QUADS 10 6 (by decide) (by decide)).2⟩

/-- Claim C18 (amended): for QUADS the fill never writes past a buffer sized by
`getIndexCount`. For either overload and every `vertexCount >= 0` with `vertexCount * 6`
at most `INT_MAX` (so that `getIndexCount` does not overflow), `fillIndices(QUADS)` runs to
completion and writes exactly `6 * (vertexCount / 4)` values (only whole quads are
expanded), at positions below `getIndexCount(QUADS, vertexCount) = vertexCount * 6 / 4`;
this number is at most `getIndexCount`, and the two are equal if and only if `vertexCount`
is a multiple of 4. -/
theorem quads_within_getIndexCount (t : IndexT) (vertexStart vertexCount : Nat)
    (hno : (vertexCount : Int) * 6 ≤ INT_MAX) :
    ∃ (stores : List Store) (n : Int),
      fillIndices t .QUADS vertexStart vertexCount = some stores ∧
      getIndexCount .QUADS (vertexCount : Int) = some n ∧
      n = Int.tdiv ((vertexCount : Int) * 6) 4 ∧
      stores.length = 6 * (vertexCount / 4) ∧
      (stores.length : Int) ≤ n ∧
      ((stores.length : Int) = n ↔ vertexCount % 4 = 0) ∧
      ∀ st ∈ stores, 0 ≤ st.1 ∧ st.1 < n := by
  have hM : INT_MAX = 2147483647 := rfl
  have hm : INT_MIN = -2147483648 := rfl
  have hdiv : Int.tdiv ((vertexCount : Int) * 6) 4 = ((vertexCount * 6 / 4 : Nat) : Int) := by
    rw [Int.tdiv_eq_ediv (by omega) (by omega)]
    push_cast
    rfl
  have hcount : getIndexCount .QUADS (vertexCount : Int) =
      some (Int.tdiv ((vertexCount : Int) * 6) 4) := by
    simp only [getIndexCount, Option.bind_eq_bind]
    rw [intResult_of_range (by omega) hno]
    rfl
  refine ⟨_, _, fillIndices_quads t vertexStart vertexCount (by omega), hcount, rfl, ?_, ?_,
    ?_, ?_⟩
  · rw [length_storesFrom]
  · rw [length_storesFrom, hdiv]; omega
  · rw [length_storesFrom, hdiv]; omega
  · intro st hst
    obtain ⟨p, hp, rfl⟩ := mem_storesFrom hst
    rw [hdiv]
    simp only
    omega

/-- Witness of `quads_within_getIndexCount`: `vertexCount = 6` gives 6 values written and
`getIndexCount = 9`. -/
theorem quads_within_getIndexCount_witness :
    getIndexCount .QUADS 6 = some 9 ∧
    ∃ (stores : List Store) (n : Int),
      fillIndices .uint16 .QUADS 0 6 = some stores ∧
      getIndexCount .QUADS ((6 : Nat) : Int) = some n ∧
      n = Int.tdiv (((6 : Nat) : Int) * 6) 4 ∧
      stores.length = 6 * (6 / 4) ∧
      (stores.length : Int) ≤ n ∧
      ((stores.length : Int) = n ↔ 6 % 4 = 0) ∧
      ∀ st ∈ stores, 0 ≤ st.1 ∧ st.1 < n :=
  ⟨by decide, quads_within_getIndexCount .uint16 0 6 (by decide)⟩

/-- Claim C18 as stated fails at `vertexCount = 357913942`, a value of the 32-bit
overload: the fill writes `6 * 89478485` values, but `vertexCount * 6 = 2147483652`
overflows `int`, so `getIndexCount(QUADS, vertexCount)` has no defined value to compare
with. -/
theorem quads_within_getIndexCount_counterexample :
    ¬ ∃ (stores : List Store) (n : Int),
      fillIndices .uint32 .QUADS 0 357913942 = some stores ∧
      getIndexCount .QUADS ((357913942 : Nat) : Int) = some n ∧
      stores.length = 6 * (357913942 / 4) ∧
      (stores.length : Int) ≤ n := by
  rintro ⟨stores, n, _, hn, _⟩
  have : getIndexCount .QUADS ((357913942 : Nat) : Int) = none := by decide
  rw [this] at hn
  cases hn

/-- Claim C20 (amended): the expansion references every vertex of the run. For either
overload, for STRIP and FAN with `vertexCount >= 3` and for QUADS with `vertexCount` a
positive multiple of 4, with `vertexStart + vertexCount - 1` representable in the index
width and an index count that does not exceed `INT_MAX`, the fill runs to completion and
every `v` with `vertexStart <= v <= vertexStart + vertexCount - 1` occurs at least once
among the values it writes. -/
theorem fillIndices_covers_run (t : IndexT) (mode : TriangleIndexMode)
    (vertexStart vertexCount : Nat)
    (hmode : ((mode = .STRIP ∨ mode = .FAN) ∧ 3 ≤ vertexCount) ∨
      (mode = .QUADS ∧ 0 < vertexCount ∧ vertexCount % 4 = 0))
    (hrep : (vertexStart : Int) + vertexCount - 1 < t.modulus)
    (hint : (emissionCount mode vertexCount : Int) ≤ INT_MAX) :
    ∃ stores, fillIndices t mode vertexStart vertexCount = some stores ∧
      ∀ v : Nat, vertexStart ≤ v → v ≤ vertexStart + vertexCount - 1 →
        ∃ st ∈ stores, st.2 = v := by
  have hmin : t = .uint32 → mode = .STRIP → 2 ≤ vertexCount := by
    rintro - hm
    rcases hmode with ⟨_, h3⟩ | ⟨hq, _⟩
    · omega
    · rw [hm] at hq; cases hq
  have hplain := storeCount_eq_emissionCount t mode vertexCount (by omega) hmin
  have hs := fillIndices_eq t mode vertexStart vertexCount (by rw [hplain]; exact hint)
  obtain ⟨_, hloc⟩ := fillIndices_some_local t mode vertexStart vertexCount _ hrep hs
  refine ⟨_, hs, ?_⟩
  intro v hv₁ hv₂
  have hpos : 0 < vertexCount := by
    rcases hmode with ⟨_, h3⟩ | ⟨_, hp, _⟩ <;> omega
  obtain ⟨p, hp, hl⟩ := emissionLocalIndex_cover mode vertexCount (v - vertexStart) hmode
    (by omega)
  rw [hloc]
  exact ⟨_, mem_storesFrom_of_lt _ hp, by simp only; omega⟩

/-- Witness of `fillIndices_covers_run`: a 16-bit fan of 5 vertices from vertex 0. -/
theorem fillIndices_covers_run_witness :
    ∃ stores, fillIndices .uint16 .FAN 0 5 = some stores ∧
      ∀ v : Nat, 0 ≤ v → v ≤ 0 + 5 - 1 → ∃ st ∈ stores, st.2 = v :=
  fillIndices_covers_run .uint16 .FAN 0 5 (by decide) (by decide) (by decide)

/-- Claim C20 as stated fails for the 32-bit overload: a strip of 715827886 vertices from
vertex 0 has at least 3 vertices and a last index representable in 32 bits, but the
`int` cursor overflows during the run, so the fill has no defined result and no value is
known to be written. -/
theorem fillIndices_covers_run_counterexample :
    ¬ ((3 : Nat) ≤ 715827886 →
        ((0 : Nat) : Int) + (715827886 : Nat) - 1 < IndexT.uint32.modulus →
        ∃ stores, fillIndices .uint32 .STRIP 0 715827886 = some stores ∧
          ∀ v : Nat, 0 ≤ v → v ≤ 0 + 715827886 - 1 → ∃ st ∈ stores, st.2 = v) := by
  intro h
  obtain ⟨stores, hs, _⟩ := h (by decide) (by decide)
  rw [fillIndices_strip_none .uint32 0 715827886 (by decide)] at hs
  cases hs

end Vertex
